import Mathlib

/-!
Verification development for the Tango puzzle repository.

The deduction engine lives in `src/logicalSolver.ts` (class `LogicalSolver`);
the data model lives in `src/types.ts`.  Cells are encoded as in the source:
`0` is EMPTY, `1` is symbol A, `2` is symbol B.  The grid is a 6×6 matrix of
cells, and a constraint (relation) is an EQUAL/OPPOSITE kind together with a
pair of positions.

The JavaScript methods mutate `this.puzzle.grid` in place; here every method
is a function that threads the grid explicitly: a rule returns a pair of the
boolean it returns in the source together with the grid as mutated by the
writes it performed on the way to that return.  Columns are accessed in the
source through a proxy whose reads and writes go straight to the backing
grid; since every rule only touches the single line it was handed, this is
modelled by extracting the column, running the rule on it, and writing the
resulting line back into the grid.
-/

namespace Tango

/-- `Cell` from `types.ts`: `0` (empty), `1`, `2`. -/
abbrev Cell := Nat

/-- A row or column of the grid, as handed to the line-scoped rules. -/
abbrev Line := List Cell

/-- `Grid` from `types.ts`: a matrix of cells. -/
abbrev Grid := List Line

/-- `Position` from `types.ts`: a `[row, column]` pair. -/
abbrev Position := Nat × Nat

/-- The kind of a constraint, `"EQUAL" | "OPPOSITE"` in `types.ts`. -/
inductive CKind where
  | EQUAL : CKind
  | OPPOSITE : CKind
deriving DecidableEq, Repr

/-- `Constraint` from `types.ts`: a kind plus the two cell positions. -/
structure Constraint where
  type : CKind
  cells : Position × Position
deriving DecidableEq, Repr

/-- `PuzzleState` from `types.ts`. -/
structure PuzzleState where
  grid : Grid
  constraints : List Constraint
deriving DecidableEq, Repr

/-- `getOppositeSymbol` from `logicalSolver.ts`. -/
def getOppositeSymbol (cell : Cell) : Cell :=
  if cell = 0 then cell else if cell = 1 then 2 else 1

/-- `getCell` from `logicalSolver.ts`: read `grid[row][col]`. -/
def getCell (g : Grid) (row col : Nat) : Cell :=
  (g.getD row []).getD col 0

/-- `setCell` from `logicalSolver.ts`: write `grid[row][col] = value`. -/
def setCell (g : Grid) (row col : Nat) (value : Cell) : Grid :=
  g.set row ((g.getD row []).set col value)

/-- `getColumn` from `logicalSolver.ts`: the column as an ordered list of
cells (the source returns a proxy; reads through it are exactly these). -/
def getColumn (g : Grid) (col : Nat) : Line :=
  g.map (fun row => row.getD col 0)

/-- Write a full column back into the grid; this is the accumulated effect of
the writes a rule performs through the column proxy of `getColumn`. -/
def setColumn (g : Grid) (col : Nat) (l : Line) : Grid :=
  List.zipWith (fun row v => row.set col v) g l

/-- Number of occurrences of value `s` in a line (the counting loops of the
source rules compare each entry against a fixed symbol). -/
def countVal : Line → Cell → Nat
  | [], _ => 0
  | c :: rest, s => (if c = s then 1 else 0) + countVal rest s

/-- Number of empty cells of a line. -/
def countEmptyL (l : Line) : Nat := countVal l 0

/-- Number of empty cells of a grid. -/
def countEmptyG : Grid → Nat
  | [] => 0
  | r :: rs => countEmptyL r + countEmptyG rs

/-- Number of positions at which two lines differ (equal-length usage). -/
def countDiff : Line → Line → Nat
  | x :: xs, y :: ys => (if x = y then 0 else 1) + countDiff xs ys
  | _, _ => 0

/-- Number of cells at which two grids differ (equal-shape usage). -/
def gridDiff : Grid → Grid → Nat
  | r :: rs, t :: ts => countDiff r t + gridDiff rs ts
  | _, _ => 0

/-! ### Rule library, transcribed from `logicalSolver.ts` -/

/-- The write loop inside `checkSymbolIsFullyAllocated`: fill every empty
cell with `v`, reporting whether any write happened (`hasChanged`). -/
def fillEmpty : Line → Cell → Bool × Line
  | [], _ => (false, [])
  | c :: rest, v =>
    let r := fillEmpty rest v
    if c = 0 then (true, v :: r.2) else (r.1, c :: r.2)

/-- `checkSymbolIsFullyAllocated` from `logicalSolver.ts`: if the line holds
exactly three cells of `symbol`, fill the empty cells with the other symbol. -/
def checkSymbolIsFullyAllocated (rowOrCol : Line) (symbol : Cell) : Bool × Line :=
  if countVal rowOrCol symbol = 3 then
    fillEmpty rowOrCol (getOppositeSymbol symbol)
  else (false, rowOrCol)

/-- The loop body of `checkAdjacentMatchingImplication` (`index1 = i`,
`index2 = i + 1`), walking the sliding window over the line.  The `fuel`
argument makes the recursion structural; whenever `l.length - i ≤ fuel` the
loop guard `i + 1 < l.length` fails before the fuel runs out, so the function
computes exactly the source's while loop (the driver passes `l.length`). -/
def adjacentGo (l : Line) : Nat → Nat → Bool × Line
  | _, 0 => (false, l)
  | i, fuel + 1 =>
    if i + 1 < l.length then
      if l.getD i 0 = l.getD (i + 1) 0 ∧ l.getD i 0 ≠ 0 then
        let o := getOppositeSymbol (l.getD i 0)
        if 0 < i ∧ l.getD (i - 1) 0 = 0 then (true, l.set (i - 1) o)
        else if i + 1 < l.length - 1 ∧ l.getD (i + 2) 0 = 0 then
          (true, l.set (i + 2) o)
        else adjacentGo l (i + 1) fuel
      else adjacentGo l (i + 1) fuel
    else (false, l)

/-- `checkAdjacentMatchingImplication` from `logicalSolver.ts`. -/
def checkAdjacentMatchingImplication (rowOrCol : Line) : Bool × Line :=
  adjacentGo rowOrCol 0 rowOrCol.length

/-- The loop body of `checkSeparatedMatchingImplication` (`index1 = i`,
`index2 = i + 1`, `index3 = i + 2`), with the same structural `fuel` as
`adjacentGo`. -/
def separatedGo (l : Line) : Nat → Nat → Bool × Line
  | _, 0 => (false, l)
  | i, fuel + 1 =>
    if i + 2 < l.length then
      if l.getD i 0 = l.getD (i + 2) 0 ∧ l.getD i 0 ≠ 0 ∧ l.getD (i + 1) 0 = 0 then
        (true, l.set (i + 1) (getOppositeSymbol (l.getD i 0)))
      else separatedGo l (i + 1) fuel
    else (false, l)

/-- `checkSeparatedMatchingImplication` from `logicalSolver.ts`. -/
def checkSeparatedMatchingImplication (rowOrCol : Line) : Bool × Line :=
  separatedGo rowOrCol 0 rowOrCol.length

/-- `checkPairAtEdgeImplication` from `logicalSolver.ts`. -/
def checkPairAtEdgeImplication (rowOrCol : Line) : Bool × Line :=
  let first := rowOrCol.getD 0 0
  let second := rowOrCol.getD 1 0
  let penultimate := rowOrCol.getD 4 0
  let last := rowOrCol.getD 5 0
  if first = second ∧ first ≠ 0 ∧ last = 0 then
    (true, rowOrCol.set 5 (getOppositeSymbol first))
  else if penultimate = last ∧ last ≠ 0 ∧ first = 0 then
    (true, rowOrCol.set 0 (getOppositeSymbol last))
  else (false, rowOrCol)

/-- `checkOuterMatchImplication` from `logicalSolver.ts`.  Note that when the
guard holds, the source writes indices `1` and `4` unconditionally. -/
def checkOuterMatchImplication (rowOrCol : Line) : Bool × Line :=
  let first := rowOrCol.getD 0 0
  let second := rowOrCol.getD 1 0
  let penultimate := rowOrCol.getD 4 0
  let last := rowOrCol.getD 5 0
  if first = last ∧ first ≠ 0 ∧ (second = 0 ∨ penultimate = 0) then
    let o := getOppositeSymbol first
    (true, (rowOrCol.set 1 o).set 4 o)
  else (false, rowOrCol)

/-- `checkOuterInteriorMatchImplication` from `logicalSolver.ts`. -/
def checkOuterInteriorMatchImplication (rowOrCol : Line) : Bool × Line :=
  let first := rowOrCol.getD 0 0
  let second := rowOrCol.getD 1 0
  let penultimate := rowOrCol.getD 4 0
  let last := rowOrCol.getD 5 0
  if first = penultimate ∧ first ≠ 0 ∧ last = 0 then
    (true, rowOrCol.set 5 (getOppositeSymbol first))
  else if second = last ∧ second ≠ 0 ∧ first = 0 then
    (true, rowOrCol.set 0 (getOppositeSymbol second))
  else (false, rowOrCol)

/-- The loop of `checkConstraints`: for the first constraint with exactly one
cell known, write the forced value into the other cell. -/
def checkConstraintsGo (g : Grid) : List Constraint → Bool × Grid
  | [] => (false, g)
  | c :: rest =>
    let p1 := c.cells.1
    let p2 := c.cells.2
    let cell1 := getCell g p1.1 p1.2
    let cell2 := getCell g p2.1 p2.2
    if (cell1 = 0 ∧ cell2 = 0) ∨ (cell1 ≠ 0 ∧ cell2 ≠ 0) then
      checkConstraintsGo g rest
    else if cell1 ≠ 0 then
      (true, setCell g p2.1 p2.2
        (if c.type = CKind.EQUAL then cell1 else getOppositeSymbol cell1))
    else if cell2 ≠ 0 then
      (true, setCell g p1.1 p1.2
        (if c.type = CKind.EQUAL then cell2 else getOppositeSymbol cell2))
    else checkConstraintsGo g rest

/-- `checkConstraints` from `logicalSolver.ts`. -/
def checkConstraints (g : Grid) (cs : List Constraint) : Bool × Grid :=
  checkConstraintsGo g cs

/-- The filter applied by several rules: EQUAL constraints whose two cells
are both still empty. -/
def isEmptyEqualsConstraint (g : Grid) (c : Constraint) : Bool :=
  c.type = CKind.EQUAL ∧ getCell g c.cells.1.1 c.cells.1.2 = 0 ∧
    getCell g c.cells.2.1 c.cells.2.2 = 0

/-- The filter applied by `checkFilledCellsOppositeImplication`: OPPOSITE
constraints whose two cells are both still empty. -/
def isEmptyOppositeConstraint (g : Grid) (c : Constraint) : Bool :=
  c.type = CKind.OPPOSITE ∧ getCell g c.cells.1.1 c.cells.1.2 = 0 ∧
    getCell g c.cells.2.1 c.cells.2.2 = 0

/-- The loop of `checkFilledCellsEqualsConflict` over the filtered
constraints. -/
def eqConflictGo (g : Grid) : List Constraint → Bool × Grid
  | [] => (false, g)
  | c :: rest =>
    let p1 := c.cells.1
    let p2 := c.cells.2
    if p1.1 = p2.1 then
      let row := g.getD p1.1 []
      let symbolOneCount := countVal row 1
      let symbolTwoCount := countVal row 2
      if 2 ≤ symbolOneCount then
        (true, g.set p1.1 ((row.set p1.2 2).set p2.2 2))
      else if 2 ≤ symbolTwoCount then
        (true, g.set p1.1 ((row.set p1.2 1).set p2.2 1))
      else eqConflictGo g rest
    else
      let col := getColumn g p1.2
      let symbolOneCount := countVal col 1
      let symbolTwoCount := countVal col 2
      if 2 ≤ symbolOneCount then
        (true, setColumn g p1.2 ((col.set p1.1 2).set p2.1 2))
      else if 2 ≤ symbolTwoCount then
        (true, setColumn g p1.2 ((col.set p1.1 1).set p2.1 1))
      else eqConflictGo g rest

/-- `checkFilledCellsEqualsConflict` from `logicalSolver.ts`. -/
def checkFilledCellsEqualsConflict (g : Grid) (cs : List Constraint) : Bool × Grid :=
  eqConflictGo g (cs.filter (isEmptyEqualsConstraint g))

/-- The write loop inside `checkFilledCellsOppositeImplication`: fill with
`v` every empty cell whose index is neither `s1` nor `s2`; the boolean is the
source's `hasChanged` flag.  `i` is the index of the head of the list. -/
def fillExcept : Line → Nat → Nat → Nat → Cell → Bool × Line
  | [], _, _, _, _ => (false, [])
  | c :: rest, i, s1, s2, v =>
    let r := fillExcept rest (i + 1) s1 s2 v
    if i = s1 ∨ i = s2 then (r.1, c :: r.2)
    else if c = 0 then (true, v :: r.2)
    else (r.1, c :: r.2)

/-- The loop of `checkFilledCellsOppositeImplication` over the filtered
constraints. -/
def oppImplGo (g : Grid) : List Constraint → Bool × Grid
  | [] => (false, g)
  | c :: rest =>
    let p1 := c.cells.1
    let p2 := c.cells.2
    if p1.1 = p2.1 then
      let row := g.getD p1.1 []
      let symbolOneCount := countVal row 1
      let symbolTwoCount := countVal row 2
      if symbolOneCount = 2 ∧ symbolTwoCount = 2 then oppImplGo g rest
      else if symbolOneCount = 2 then
        let r := fillExcept row 0 p1.2 p2.2 2
        if r.1 then (true, g.set p1.1 r.2) else oppImplGo (g.set p1.1 r.2) rest
      else if symbolTwoCount = 2 then
        let r := fillExcept row 0 p1.2 p2.2 1
        if r.1 then (true, g.set p1.1 r.2) else oppImplGo (g.set p1.1 r.2) rest
      else oppImplGo g rest
    else
      let col := getColumn g p1.2
      let symbolOneCount := countVal col 1
      let symbolTwoCount := countVal col 2
      if symbolOneCount = 2 ∧ symbolTwoCount = 2 then oppImplGo g rest
      else if symbolOneCount = 2 then
        let r := fillExcept col 0 p1.1 p2.1 2
        if r.1 then (true, setColumn g p1.2 r.2)
        else oppImplGo (setColumn g p1.2 r.2) rest
      else if symbolTwoCount = 2 then
        let r := fillExcept col 0 p1.1 p2.1 1
        if r.1 then (true, setColumn g p1.2 r.2)
        else oppImplGo (setColumn g p1.2 r.2) rest
      else oppImplGo g rest

/-- `checkFilledCellsOppositeImplication` from `logicalSolver.ts`. -/
def checkFilledCellsOppositeImplication (g : Grid) (cs : List Constraint) : Bool × Grid :=
  oppImplGo g (cs.filter (isEmptyOppositeConstraint g))

/-- The loop of `checkEqualConstraintNeighbourImplication` over the filtered
constraints. -/
def eqNeighbourGo (g : Grid) : List Constraint → Bool × Grid
  | [] => (false, g)
  | c :: rest =>
    let p1 := c.cells.1
    let p2 := c.cells.2
    if p1.1 = p2.1 then
      let row := g.getD p1.1 []
      let s := min p1.2 p2.2
      let e := max p1.2 p2.2
      if 0 < s ∧ row.getD (s - 1) 0 ≠ 0 then
        let o := getOppositeSymbol (row.getD (s - 1) 0)
        (true, g.set p1.1 ((row.set s o).set e o))
      else if e < row.length - 1 ∧ row.getD (e + 1) 0 ≠ 0 then
        let o := getOppositeSymbol (row.getD (e + 1) 0)
        (true, g.set p1.1 ((row.set s o).set e o))
      else eqNeighbourGo g rest
    else
      let col := getColumn g p1.2
      let s := min p1.1 p2.1
      let e := max p1.1 p2.1
      if 0 < s ∧ col.getD (s - 1) 0 ≠ 0 then
        let o := getOppositeSymbol (col.getD (s - 1) 0)
        (true, setColumn g p1.2 ((col.set s o).set e o))
      else if e < col.length - 1 ∧ col.getD (e + 1) 0 ≠ 0 then
        let o := getOppositeSymbol (col.getD (e + 1) 0)
        (true, setColumn g p1.2 ((col.set s o).set e o))
      else eqNeighbourGo g rest

/-- `checkEqualConstraintNeighbourImplication` from `logicalSolver.ts`. -/
def checkEqualConstraintNeighbourImplication (g : Grid) (cs : List Constraint) :
    Bool × Grid :=
  eqNeighbourGo g (cs.filter (isEmptyEqualsConstraint g))

/-- The loop of `checkEmptyOuterEqualsOppositeEdgeFilledImplication` over the
filtered constraints. -/
def eqEdgeGo (g : Grid) : List Constraint → Bool × Grid
  | [] => (false, g)
  | c :: rest =>
    let p1 := c.cells.1
    let p2 := c.cells.2
    if p1.1 = p2.1 then
      let row := g.getD p1.1 []
      let s := min p1.2 p2.2
      let e := max p1.2 p2.2
      if s = 0 ∧ row.getD 5 0 ≠ 0 then
        let o := getOppositeSymbol (row.getD 5 0)
        (true, g.set p1.1 ((row.set s o).set e o))
      else if e = 5 ∧ row.getD 0 0 ≠ 0 then
        let o := getOppositeSymbol (row.getD 0 0)
        (true, g.set p1.1 ((row.set s o).set e o))
      else eqEdgeGo g rest
    else
      let col := getColumn g p1.2
      let s := min p1.1 p2.1
      let e := max p1.1 p2.1
      if s = 0 ∧ col.getD 5 0 ≠ 0 then
        let o := getOppositeSymbol (col.getD 5 0)
        (true, setColumn g p1.2 ((col.set s o).set e o))
      else if e = 5 ∧ col.getD 0 0 ≠ 0 then
        let o := getOppositeSymbol (col.getD 0 0)
        (true, setColumn g p1.2 ((col.set s o).set e o))
      else eqEdgeGo g rest

/-- `checkEmptyOuterEqualsOppositeEdgeFilledImplication` from
`logicalSolver.ts`. -/
def checkEmptyOuterEqualsOppositeEdgeFilledImplication (g : Grid)
    (cs : List Constraint) : Bool × Grid :=
  eqEdgeGo g (cs.filter (isEmptyEqualsConstraint g))

/-! ### The driver, `makeDeduction` -/

/-- One iteration block of the "symbol fully allocated" loop of
`makeDeduction`: row with symbol 1, row with symbol 2, column with symbol 1,
column with symbol 2, stopping at the first success.  The index list stands
for the loop counter (the grid's length never changes, so iterating over the
initial range is the same as re-checking `i < grid.length`). -/
def fullAllocGo (g : Grid) : List Nat → Bool × Grid
  | [] => (false, g)
  | i :: rest =>
    let r1 := checkSymbolIsFullyAllocated (g.getD i []) 1
    let ga := g.set i r1.2
    if r1.1 then (true, ga)
    else
      let r2 := checkSymbolIsFullyAllocated (ga.getD i []) 2
      let gb := ga.set i r2.2
      if r2.1 then (true, gb)
      else
        let c1 := checkSymbolIsFullyAllocated (getColumn gb i) 1
        let gc := setColumn gb i c1.2
        if c1.1 then (true, gc)
        else
          let c2 := checkSymbolIsFullyAllocated (getColumn gc i) 2
          let gd := setColumn gc i c2.2
          if c2.1 then (true, gd)
          else fullAllocGo gd rest

/-- A `for i` loop of `makeDeduction` that runs a line rule on row `i` and
then on column `i`, stopping at the first success. -/
def lineGo (f : Line → Bool × Line) (g : Grid) : List Nat → Bool × Grid
  | [] => (false, g)
  | i :: rest =>
    let r := f (g.getD i [])
    let g1 := g.set i r.2
    if r.1 then (true, g1)
    else
      let c := f (getColumn g1 i)
      let g2 := setColumn g1 i c.2
      if c.1 then (true, g2)
      else lineGo f g2 rest

/-- `makeDeduction` from `logicalSolver.ts`: run the rules in the source's
order, returning at the first success; the grid component is
`this.puzzle.grid` at the point of return. -/
def makeDeduction (s : PuzzleState) : Bool × Grid :=
  let cs := s.constraints
  let r1 := checkConstraints s.grid cs
  if r1.1 then r1 else
  let r2 := checkFilledCellsEqualsConflict r1.2 cs
  if r2.1 then r2 else
  let r3 := checkEqualConstraintNeighbourImplication r2.2 cs
  if r3.1 then r3 else
  let r4 := checkFilledCellsOppositeImplication r3.2 cs
  if r4.1 then r4 else
  let r5 := checkEmptyOuterEqualsOppositeEdgeFilledImplication r4.2 cs
  if r5.1 then r5 else
  let r6 := fullAllocGo r5.2 (List.range r5.2.length)
  if r6.1 then r6 else
  let r7 := lineGo checkAdjacentMatchingImplication r6.2 (List.range r6.2.length)
  if r7.1 then r7 else
  let r8 := lineGo checkSeparatedMatchingImplication r7.2 (List.range r7.2.length)
  if r8.1 then r8 else
  let r9 := lineGo checkPairAtEdgeImplication r8.2 (List.range r8.2.length)
  if r9.1 then r9 else
  let r10 := lineGo checkOuterMatchImplication r9.2 (List.range r9.2.length)
  if r10.1 then r10 else
  let r11 := lineGo checkOuterInteriorMatchImplication r10.2 (List.range r10.2.length)
  if r11.1 then r11 else (false, r11.2)

/-- `deepCopy` from `logicalSolver.ts`, specialised to `PuzzleState` (the only
input the constructor passes): the JSON round trip rebuilds the nested arrays
and objects field by field. -/
def deepCopy (s : PuzzleState) : PuzzleState :=
  { grid := s.grid.map (fun row => row.map (fun c => c)),
    constraints := s.constraints.map (fun c =>
      { type := c.type,
        cells := ((c.cells.1.1, c.cells.1.2), (c.cells.2.1, c.cells.2.2)) }) }

/-- The `LogicalSolver` constructor: stores `deepCopy(puzzle)`.  `none` would
model a thrown rejection; the source constructor contains no code path that
throws on these inputs, so it always returns `some`. -/
def construct (puzzle : PuzzleState) : Option PuzzleState :=
  some (deepCopy puzzle)

/-- The result object of `LogicalSolver.solve`. -/
structure SolveResult where
  solvedPuzzle : Option PuzzleState
  isSolvable : Bool
deriving DecidableEq, Repr

/-- `solve` from `logicalSolver.ts`: the source body is
`return { isSolvable: false, solvedPuzzle: null };`. -/
def solve (_ : PuzzleState) : SolveResult :=
  { solvedPuzzle := none, isSolvable := false }

/-! ### Well-formedness of puzzle states (the data model of `types.ts`) -/

/-- A grid of the fixed 6×6 board. -/
def GridWF (g : Grid) : Prop := g.length = 6 ∧ ∀ r ∈ g, r.length = 6

/-- All constraint positions are on the board. -/
def ConsWF (cs : List Constraint) : Prop :=
  ∀ c ∈ cs, c.cells.1.1 < 6 ∧ c.cells.1.2 < 6 ∧ c.cells.2.1 < 6 ∧ c.cells.2.2 < 6

/-- A well-formed puzzle state: 6×6 grid, on-board constraint positions. -/
def PuzzleWF (s : PuzzleState) : Prop := GridWF s.grid ∧ ConsWF s.constraints

instance : DecidablePred GridWF := fun g => by unfold GridWF; infer_instance

instance : DecidablePred ConsWF := fun cs => by unfold ConsWF; infer_instance

instance : DecidablePred PuzzleWF := fun s => by unfold PuzzleWF; infer_instance

/-! ### Drivers as ordered rule lists (for the priority-order claim) -/

/-- A rule as invoked by the driver: it reads and mutates the grid and may
consult the constraint list. -/
abbrev RuleFn := Grid → List Constraint → Bool × Grid

/-- Run rules in order, stopping at the first that reports success, threading
the grid through (a rule that reports no success returns the grid exactly as
it left it). -/
def applyRules : List RuleFn → Grid → List Constraint → Bool × Grid
  | [], g, _ => (false, g)
  | r :: rest, g, cs =>
    let x := r g cs
    if x.1 then x else applyRules rest x.2 cs

/-- The full-allocation scan over every row and column, as a driver rule. -/
def fullAllocRule : RuleFn := fun g _ => fullAllocGo g (List.range g.length)

/-- A line rule lifted to the scan over every row and column. -/
def lineRule (f : Line → Bool × Line) : RuleFn := fun g _ =>
  lineGo f g (List.range g.length)

/-- The rule order actually used by `makeDeduction` in `logicalSolver.ts`. -/
def sourceRuleOrder : List RuleFn :=
  [checkConstraints, checkFilledCellsEqualsConflict,
   checkEqualConstraintNeighbourImplication, checkFilledCellsOppositeImplication,
   checkEmptyOuterEqualsOppositeEdgeFilledImplication, fullAllocRule,
   lineRule checkAdjacentMatchingImplication,
   lineRule checkSeparatedMatchingImplication,
   lineRule checkPairAtEdgeImplication,
   lineRule checkOuterMatchImplication,
   lineRule checkOuterInteriorMatchImplication]

/-- The rule order stated by the specification for the single-step driver,
following the spec's words: relation rules, then cardinality rules
(relation-vs-count, then opposite-overflow), then per-line full-allocation
checks over every row and column, then adjacency rules over every row and
column, then relation-boundary (EQUAL-neighbour, then EQUAL-edge) rules. -/
def claimedRuleOrder : List RuleFn :=
  [checkConstraints, checkFilledCellsEqualsConflict,
   checkFilledCellsOppositeImplication, fullAllocRule,
   lineRule checkAdjacentMatchingImplication,
   lineRule checkSeparatedMatchingImplication,
   lineRule checkPairAtEdgeImplication,
   lineRule checkOuterMatchImplication,
   lineRule checkOuterInteriorMatchImplication,
   checkEqualConstraintNeighbourImplication,
   checkEmptyOuterEqualsOppositeEdgeFilledImplication]

/-- The single-step driver as the specification orders it. -/
def claimedDeduction (s : PuzzleState) : Bool × Grid :=
  applyRules claimedRuleOrder s.grid s.constraints

/-! ### Iterated deduction (for the termination claim) -/

/-- `n` consecutive progress-reporting invocations of `makeDeduction`
starting from `s`: `some` final state if every one of the `n` invocations
reported progress, `none` if some invocation reported no progress. -/
def iterSucc : PuzzleState → Nat → Option PuzzleState
  | s, 0 => some s
  | s, n + 1 =>
    let r := makeDeduction s
    if r.1 then iterSucc ⟨r.2, s.constraints⟩ n else none

/-! ### Structural validity of relations (for the construction claim) -/

/-- Structural validity of a relation, following the spec's words: it must
not reference a position outside the 6×6 grid, and its two positions must
share a row or share a column. -/
def structurallyValidRelation (c : Constraint) : Prop :=
  (c.cells.1.1 < 6 ∧ c.cells.1.2 < 6 ∧ c.cells.2.1 < 6 ∧ c.cells.2.2 < 6) ∧
    (c.cells.1.1 = c.cells.2.1 ∨ c.cells.1.2 = c.cells.2.2)

instance : DecidablePred structurallyValidRelation := fun c => by
  unfold structurallyValidRelation; infer_instance

/-! ### Eligibility of a relation for the basic relation rule -/

/-- Exactly one of the two cells of the constraint is known. -/
def exactlyOneKnown (g : Grid) (c : Constraint) : Prop :=
  (getCell g c.cells.1.1 c.cells.1.2 ≠ 0 ∧ getCell g c.cells.2.1 c.cells.2.2 = 0) ∨
    (getCell g c.cells.1.1 c.cells.1.2 = 0 ∧ getCell g c.cells.2.1 c.cells.2.2 ≠ 0)

instance (g : Grid) : DecidablePred (exactlyOneKnown g) := fun c => by
  unfold exactlyOneKnown; infer_instance

/-! ### Firing condition of the adjacent-pair window (for the tie-break claim) -/

/-- The sliding window at `(j, j + 1)` makes `checkAdjacentMatchingImplication`
fire: the two cells match, are non-empty, and at least one of the two outer
neighbours exists and is empty. -/
def adjacentWindowFires (l : Line) (j : Nat) : Prop :=
  l.getD j 0 = l.getD (j + 1) 0 ∧ l.getD j 0 ≠ 0 ∧
    ((0 < j ∧ l.getD (j - 1) 0 = 0) ∨ (j + 1 < l.length - 1 ∧ l.getD (j + 2) 0 = 0))

instance (l : Line) : DecidablePred (adjacentWindowFires l) := fun j => by
  unfold adjacentWindowFires; infer_instance

/-! ### Concrete states used to exercise the engine -/

/-- An all-empty row. -/
def zeroRow : Line := [0, 0, 0, 0, 0, 0]

/-- Row 0 holds three As and three empty cells; no relations. -/
def fullAllocState : PuzzleState :=
  ⟨[[1, 1, 1, 0, 0, 0], zeroRow, zeroRow, zeroRow, zeroRow, zeroRow], []⟩

/-- A state whose first row makes the outer-match rule write into a
non-empty cell. -/
def overwriteState : PuzzleState :=
  ⟨[[1, 1, 1, 2, 0, 1], zeroRow, zeroRow, zeroRow, zeroRow, zeroRow], []⟩

/-- A state on which both the EQUAL-neighbour rule (row 0) and the
opposite-overflow rule (row 2) are applicable, so the order in which the
driver tries the two rule classes is observable. -/
def orderState : PuzzleState :=
  ⟨[[1, 0, 0, 0, 0, 0], zeroRow, [0, 0, 1, 1, 0, 0], zeroRow, zeroRow, zeroRow],
   [⟨CKind.EQUAL, ((0, 1), (0, 2))⟩, ⟨CKind.OPPOSITE, ((2, 0), (2, 1))⟩]⟩

/-- The spec's basic-relation scenario: cell (0,0) = A, relation
EQUAL on (0,0)-(0,1), everything else empty. -/
def equalScenarioState : PuzzleState :=
  ⟨[[1, 0, 0, 0, 0, 0], zeroRow, zeroRow, zeroRow, zeroRow, zeroRow],
   [⟨CKind.EQUAL, ((0, 0), (0, 1))⟩]⟩

/-- The spec's opposite-relation scenario: cell (0,0) = A, relation
OPPOSITE on (0,0)-(0,1), everything else empty. -/
def oppositeScenarioState : PuzzleState :=
  ⟨[[1, 0, 0, 0, 0, 0], zeroRow, zeroRow, zeroRow, zeroRow, zeroRow],
   [⟨CKind.OPPOSITE, ((0, 0), (0, 1))⟩]⟩

/-- The spec's contradiction scenario: cells (0,0) = A and (0,1) = A with an
OPPOSITE relation between them. -/
def contradictionState : PuzzleState :=
  ⟨[[1, 1, 0, 0, 0, 0], zeroRow, zeroRow, zeroRow, zeroRow, zeroRow],
   [⟨CKind.OPPOSITE, ((0, 0), (0, 1))⟩]⟩

/-- A state carrying a structurally invalid relation: position (7,3) is
outside the 6×6 grid. -/
def invalidRelationState : PuzzleState :=
  ⟨[zeroRow, zeroRow, zeroRow, zeroRow, zeroRow, zeroRow],
   [⟨CKind.EQUAL, ((0, 0), (7, 3))⟩]⟩

/-- The all-empty puzzle with no relations: a fixpoint of the rule library. -/
def emptyState : PuzzleState :=
  ⟨[zeroRow, zeroRow, zeroRow, zeroRow, zeroRow, zeroRow], []⟩

/-- The properties shared by every line-scoped rule: the line keeps its
length; a rule that reports no deduction leaves the line as it was; a rule
that reports a deduction on a 6-cell line strictly shrinks the number of
empty cells; and at most three cells of a 6-cell line change. -/
structure LineRuleOK (f : Line → Bool × Line) : Prop where
  len : ∀ l, (f l).2.length = l.length
  false_eq : ∀ l, (f l).1 = false → (f l).2 = l
  true_lt : ∀ l, l.length = 6 → (f l).1 = true → countEmptyL (f l).2 < countEmptyL l
  diff_le : ∀ l, l.length = 6 → countDiff l (f l).2 ≤ 3

/-- The properties shared by every driver rule: a rule that reports no
deduction has not changed the grid, and a rule that reports a deduction on a
well-formed state strictly shrinks the number of empty cells, changes at most
three cells, and preserves well-formedness. -/
def RuleOK (r : RuleFn) : Prop :=
  (∀ g cs, (r g cs).1 = false → (r g cs).2 = g) ∧
  (∀ g cs, GridWF g → ConsWF cs → (r g cs).1 = true →
    countEmptyG (r g cs).2 < countEmptyG g ∧
    gridDiff g (r g cs).2 ≤ 3 ∧ GridWF (r g cs).2)

/-! ## Basic list lemmas -/

theorem set_oob {α : Type} (l : List α) (i : Nat) (v : α) (h : l.length ≤ i) :
    l.set i v = l := by
  induction l generalizing i with
  | nil => rfl
  | cons a as ih =>
    cases i with
    | zero => simp at h
    | succ j => simp only [List.set_cons_succ]; rw [ih]; simpa using h

theorem getD_set_self {α : Type} (l : List α) (i : Nat) (v d : α)
    (h : i < l.length) : (l.set i v).getD i d = v := by
  induction l generalizing i with
  | nil => simp at h
  | cons a as ih =>
    cases i with
    | zero => rfl
    | succ j => simpa using ih j (by simpa using h)

theorem getD_set_ne {α : Type} (l : List α) {i j : Nat} (v : α) (d : α)
    (h : i ≠ j) : (l.set i v).getD j d = l.getD j d := by
  induction l generalizing i j with
  | nil => rfl
  | cons a as ih =>
    cases i with
    | zero =>
      cases j with
      | zero => exact absurd rfl h
      | succ j2 => rfl
    | succ i2 =>
      cases j with
      | zero => rfl
      | succ j2 => simpa using ih (i := i2) (j := j2) (by omega)

theorem set_getD_self {α : Type} (l : List α) (i : Nat) (d : α) :
    l.set i (l.getD i d) = l := by
  induction l generalizing i with
  | nil => rfl
  | cons a as ih =>
    cases i with
    | zero => rfl
    | succ j => simpa using ih j

theorem getD_mem {α : Type} (l : List α) (i : Nat) (d : α) (h : i < l.length) :
    l.getD i d ∈ l := by
  induction l generalizing i with
  | nil => simp at h
  | cons a as ih =>
    cases i with
    | zero => exact List.mem_cons_self a as
    | succ j => exact List.mem_cons_of_mem a (ih j (by simpa using h))

theorem mem_set {α : Type} {l : List α} {i : Nat} {v r : α}
    (h : r ∈ l.set i v) : r ∈ l ∨ r = v := by
  induction l generalizing i with
  | nil => simp at h
  | cons a as ih =>
    cases i with
    | zero =>
      rcases List.mem_cons.mp h with h1 | h1
      · exact Or.inr h1
      · exact Or.inl (List.mem_cons_of_mem a h1)
    | succ j =>
      rcases List.mem_cons.mp h with h1 | h1
      · exact Or.inl (h1 ▸ List.mem_cons_self a as)
      · rcases ih h1 with h2 | h2
        · exact Or.inl (List.mem_cons_of_mem a h2)
        · exact Or.inr h2

/-! ## Counting lemmas -/

theorem countVal_set_add (l : Line) (i : Nat) (v s : Cell) (h : i < l.length) :
    countVal (l.set i v) s + (if l.getD i 0 = s then 1 else 0) =
      countVal l s + (if v = s then 1 else 0) := by
  induction l generalizing i with
  | nil => simp at h
  | cons a as ih =>
    cases i with
    | zero => simp [countVal]; omega
    | succ j =>
      have := ih j (by simpa using h)
      simp only [List.set_cons_succ, List.getD_cons_succ, countVal]
      omega

theorem countVal_set_le (l : Line) (i : Nat) {v s : Cell} (hv : v ≠ s) :
    countVal (l.set i v) s ≤ countVal l s := by
  by_cases h : i < l.length
  · have := countVal_set_add l i v s h
    simp only [if_neg hv] at this
    omega
  · rw [set_oob l i v (by omega)]

theorem countVal_set_lt (l : Line) {i : Nat} {v s : Cell} (h : i < l.length)
    (h0 : l.getD i 0 = s) (hv : v ≠ s) :
    countVal (l.set i v) s < countVal l s := by
  have := countVal_set_add l i v s h
  simp only [if_pos h0, if_neg hv] at this
  omega

theorem countVal_le_length (l : Line) (s : Cell) : countVal l s ≤ l.length := by
  induction l with
  | nil => simp [countVal]
  | cons a as ih => simp only [countVal, List.length_cons]; split <;> omega

theorem countVal_add_le (l : Line) {s t : Cell} (h : s ≠ t) :
    countVal l s + countVal l t ≤ l.length := by
  induction l with
  | nil => simp [countVal]
  | cons a as ih =>
    simp only [countVal, List.length_cons]
    by_cases h1 : a = s
    · rw [if_pos h1, if_neg (h1 ▸ h)]; omega
    · rw [if_neg h1]; split <;> omega

theorem countVal_pos (l : Line) {j : Nat} {s : Cell} (hj : j < l.length)
    (h : l.getD j 0 = s) : 1 ≤ countVal l s := by
  induction l generalizing j with
  | nil => simp at hj
  | cons a as ih =>
    cases j with
    | zero => simp only [List.getD_cons_zero] at h; simp [countVal, h]
    | succ j2 =>
      have := ih (by simpa using hj) (by simpa using h)
      simp only [countVal]; omega

/-! ## Difference-count lemmas -/

theorem countDiff_self (l : Line) : countDiff l l = 0 := by
  induction l with
  | nil => rfl
  | cons a as ih => simp [countDiff, ih]

theorem countDiff_set_le (l : Line) (i : Nat) (v : Cell) :
    countDiff l (l.set i v) ≤ 1 := by
  induction l generalizing i with
  | nil => simp [countDiff]
  | cons a as ih =>
    cases i with
    | zero =>
      simp only [List.set_cons_zero, countDiff, countDiff_self]
      split <;> omega
    | succ j =>
      have := ih j
      simp only [List.set_cons_succ, countDiff]
      simpa using this

theorem countDiff_triangle {a b c : Line} (h1 : a.length = b.length)
    (h2 : b.length = c.length) : countDiff a c ≤ countDiff a b + countDiff b c := by
  induction a generalizing b c with
  | nil =>
    cases b with
    | nil => cases c with
      | nil => simp [countDiff]
      | cons _ _ => simp at h2
    | cons _ _ => simp at h1
  | cons x xs ih =>
    cases b with
    | nil => simp at h1
    | cons y ys =>
      cases c with
      | nil => simp at h2
      | cons z zs =>
        have := ih (b := ys) (c := zs) (by simpa using h1) (by simpa using h2)
        simp only [countDiff]
        by_cases hxz : x = z
        · rw [if_pos hxz]; split <;> split <;> omega
        · rw [if_neg hxz]
          by_cases hxy : x = y
          · rw [if_pos hxy, if_neg (hxy ▸ hxz)]; omega
          · rw [if_neg hxy]; split <;> omega

theorem countDiff_set_pair_le (l : Line) (a b : Nat) (v : Cell) :
    countDiff l ((l.set a v).set b v) ≤ 2 := by
  have h1 := countDiff_set_le l a v
  have h2 := countDiff_set_le (l.set a v) b v
  have := countDiff_triangle (a := l) (b := l.set a v) (c := (l.set a v).set b v)
    (by simp) (by simp)
  omega

theorem countDiff_set_le_ite (l : Line) (i : Nat) (v : Cell) :
    countDiff l (l.set i v) ≤ if l.getD i 0 = v then 0 else 1 := by
  by_cases h : l.getD i 0 = v
  · rw [if_pos h]
    by_cases hi : i < l.length
    · rw [← h, set_getD_self, countDiff_self]
    · rw [set_oob l i v (by omega), countDiff_self]
  · rw [if_neg h]; exact countDiff_set_le l i v

/-! ## Grid-level lemmas -/

theorem gridDiff_self (g : Grid) : gridDiff g g = 0 := by
  induction g with
  | nil => rfl
  | cons r rs ih => simp [gridDiff, countDiff_self, ih]

theorem gridDiff_set_eq (g : Grid) (l' : Line) {i : Nat} (h : i < g.length) :
    gridDiff g (g.set i l') = countDiff (g.getD i []) l' := by
  induction g generalizing i with
  | nil => simp at h
  | cons r rs ih =>
    cases i with
    | zero => simp [gridDiff, gridDiff_self]
    | succ j =>
      have := ih (by simpa using h)
      simp only [List.set_cons_succ, List.getD_cons_succ, gridDiff,
        countDiff_self, this]
      omega

theorem getColumn_length (g : Grid) (j : Nat) : (getColumn g j).length = g.length := by
  simp [getColumn]

theorem getColumn_getD_eq (g : Grid) {i : Nat} (j : Nat) (h : i < g.length) :
    (getColumn g j).getD i 0 = getCell g i j := by
  induction g generalizing i with
  | nil => simp at h
  | cons r rs ih =>
    cases i with
    | zero => rfl
    | succ i2 =>
      have := ih (by simpa using h)
      simpa [getColumn, getCell] using this

theorem setColumn_length (g : Grid) (j : Nat) (l : Line) :
    (setColumn g j l).length = min g.length l.length := by
  simp [setColumn]

theorem setColumn_self (g : Grid) (j : Nat) : setColumn g j (getColumn g j) = g := by
  induction g with
  | nil => rfl
  | cons r rs ih =>
    simp only [getColumn, setColumn, List.map_cons, List.zipWith_cons_cons]
    rw [set_getD_self]
    simpa [setColumn, getColumn] using ih

theorem gridDiff_setColumn_le (g : Grid) (j : Nat) (l' : Line) :
    gridDiff g (setColumn g j l') ≤ countDiff (getColumn g j) l' := by
  induction g generalizing l' with
  | nil => simp [setColumn, gridDiff]
  | cons r rs ih =>
    cases l' with
    | nil => simp [setColumn, gridDiff]
    | cons v vs =>
      have h1 := countDiff_set_le_ite r j v
      have h2 := ih vs
      simp only [setColumn, getColumn, List.map_cons, List.zipWith_cons_cons,
        gridDiff, countDiff] at *
      by_cases hc : r.getD j 0 = v
      · rw [if_pos hc] at h1 ⊢; omega
      · rw [if_neg hc] at h1 ⊢; omega

theorem countEmptyG_set_add (g : Grid) (l' : Line) {i : Nat} (h : i < g.length) :
    countEmptyG (g.set i l') + countEmptyL (g.getD i []) =
      countEmptyG g + countEmptyL l' := by
  induction g generalizing i with
  | nil => simp at h
  | cons r rs ih =>
    cases i with
    | zero => simp [countEmptyG]; omega
    | succ j =>
      have := ih (by simpa using h)
      simp only [List.set_cons_succ, List.getD_cons_succ, countEmptyG]
      omega

theorem countEmptyG_setColumn_add (g : Grid) {j : Nat} (l' : Line)
    (hrows : ∀ r ∈ g, j < r.length) (hlen : l'.length = g.length) :
    countEmptyG (setColumn g j l') + countEmptyL (getColumn g j) =
      countEmptyG g + countEmptyL l' := by
  induction g generalizing l' with
  | nil =>
    cases l' with
    | nil => rfl
    | cons _ _ => simp at hlen
  | cons r rs ih =>
    cases l' with
    | nil => simp at hlen
    | cons v vs =>
      have hr : j < r.length := hrows r (List.mem_cons_self r rs)
      have hadd := countVal_set_add r j v 0 hr
      have := ih vs (fun t ht => hrows t (List.mem_cons_of_mem r ht))
        (by simpa using hlen)
      simp only [setColumn, getColumn, List.map_cons, List.zipWith_cons_cons,
        countEmptyG, countEmptyL, countVal] at *
      omega

/-! ## Well-formedness preservation -/

theorem getOppositeSymbol_ne_zero {c : Cell} (h : c ≠ 0) :
    getOppositeSymbol c ≠ 0 := by
  unfold getOppositeSymbol
  rw [if_neg h]
  split <;> simp

theorem rowLen {g : Grid} (hg : GridWF g) {i : Nat} (hi : i < g.length) :
    (g.getD i []).length = 6 :=
  hg.2 _ (getD_mem g i [] hi)

theorem GridWF_set {g : Grid} (hg : GridWF g) {l' : Line} (hl : l'.length = 6)
    (i : Nat) : GridWF (g.set i l') := by
  refine ⟨by simpa using hg.1, fun r hr => ?_⟩
  rcases mem_set hr with h | h
  · exact hg.2 r h
  · exact h ▸ hl

theorem GridWF_setCell {g : Grid} (hg : GridWF g) (r c : Nat) (v : Cell) :
    GridWF (setCell g r c v) := by
  unfold setCell
  by_cases hr : r < g.length
  · exact GridWF_set hg (by simpa using rowLen hg hr) r
  · rw [set_oob g r _ (by omega)]; exact hg

theorem setColumn_rows_len {g : Grid} {j : Nat} {l' : Line}
    (hg : ∀ r ∈ g, r.length = 6) :
    ∀ r ∈ setColumn g j l', r.length = 6 := by
  induction g generalizing l' with
  | nil => simp [setColumn]
  | cons r rs ih =>
    cases l' with
    | nil => simp [setColumn]
    | cons v vs =>
      intro t ht
      simp only [setColumn, List.zipWith_cons_cons] at ht
      rcases List.mem_cons.mp ht with h | h
      · rw [h]; simpa using hg r (List.mem_cons_self r rs)
      · exact ih (fun q hq => hg q (List.mem_cons_of_mem r hq)) t h

theorem GridWF_setColumn {g : Grid} (hg : GridWF g) {j : Nat} {l' : Line}
    (hlen : l'.length = g.length) : GridWF (setColumn g j l') := by
  refine ⟨?_, setColumn_rows_len hg.2⟩
  rw [setColumn_length, hlen, Nat.min_self, hg.1]

/-! ## Empty-count and difference corollaries for single writes -/

theorem countEmptyL_set_lt {l : Line} {i : Nat} {v : Cell} (h : i < l.length)
    (h0 : l.getD i 0 = 0) (hv : v ≠ 0) :
    countEmptyL (l.set i v) < countEmptyL l :=
  countVal_set_lt l h h0 hv

theorem countEmptyL_set_le {v : Cell} (hv : v ≠ 0) (l : Line) (i : Nat) :
    countEmptyL (l.set i v) ≤ countEmptyL l :=
  countVal_set_le l i hv

theorem countEmptyL_set_pair_lt {l : Line} {a b : Nat} {v : Cell} (hv : v ≠ 0)
    (h : (a < l.length ∧ l.getD a 0 = 0) ∨
      (b < l.length ∧ b ≠ a ∧ l.getD b 0 = 0)) :
    countEmptyL ((l.set a v).set b v) < countEmptyL l := by
  rcases h with ⟨ha, h0⟩ | ⟨hb, hba, h0⟩
  · have h1 := countEmptyL_set_lt ha h0 hv
    have h2 := countEmptyL_set_le hv (l.set a v) b
    omega
  · have h1 := countEmptyL_set_le hv l a
    have h2 : countEmptyL ((l.set a v).set b v) < countEmptyL (l.set a v) := by
      refine countEmptyL_set_lt (by simpa using hb) ?_ hv
      rw [getD_set_ne l v 0 (fun hab => hba hab.symm)]
      exact h0
    omega

theorem countEmptyG_setCell_lt {g : Grid} {r c : Nat} {v : Cell}
    (hr : r < g.length) (hc : c < (g.getD r []).length)
    (h0 : getCell g r c = 0) (hv : v ≠ 0) :
    countEmptyG (setCell g r c v) < countEmptyG g := by
  unfold setCell
  have hadd := countEmptyG_set_add g ((g.getD r []).set c v) hr
  have hlt : countEmptyL ((g.getD r []).set c v) < countEmptyL (g.getD r []) :=
    countEmptyL_set_lt hc h0 hv
  omega

theorem countEmptyG_setCell_le {v : Cell} (hv : v ≠ 0) (g : Grid) (r c : Nat) :
    countEmptyG (setCell g r c v) ≤ countEmptyG g := by
  unfold setCell
  by_cases hr : r < g.length
  · have hadd := countEmptyG_set_add g ((g.getD r []).set c v) hr
    have hle := countEmptyL_set_le hv (g.getD r []) c
    omega
  · rw [set_oob g r _ (by omega)]

theorem gridDiff_setCell_le (g : Grid) (r c : Nat) (v : Cell) :
    gridDiff g (setCell g r c v) ≤ 1 := by
  unfold setCell
  by_cases hr : r < g.length
  · rw [gridDiff_set_eq g _ hr]
    exact countDiff_set_le _ c v
  · rw [set_oob g r _ (by omega), gridDiff_self]
    omega

/-! ## The fill loop of the full-allocation rule -/

theorem fillEmpty_snd (l : Line) (v : Cell) :
    (fillEmpty l v).2 = l.map (fun c => if c = 0 then v else c) := by
  induction l with
  | nil => rfl
  | cons c rest ih =>
    by_cases hc : c = 0 <;> simp [fillEmpty, hc, ih]

theorem fillEmpty_len (l : Line) (v : Cell) :
    (fillEmpty l v).2.length = l.length := by
  rw [fillEmpty_snd]; simp

theorem fillEmpty_false (l : Line) (v : Cell) :
    (fillEmpty l v).1 = false → (fillEmpty l v).2 = l := by
  induction l with
  | nil => intro; rfl
  | cons c rest ih =>
    by_cases hc : c = 0
    · simp [fillEmpty, hc]
    · simp only [fillEmpty, if_neg hc]
      intro h
      rw [ih h]

theorem fillEmpty_true_pos (l : Line) (v : Cell) :
    (fillEmpty l v).1 = true → 1 ≤ countEmptyL l := by
  induction l with
  | nil => simp [fillEmpty]
  | cons c rest ih =>
    by_cases hc : c = 0
    · intro
      simp only [countEmptyL, countVal, if_pos hc]
      omega
    · simp only [fillEmpty, if_neg hc, countEmptyL, countVal]
      intro h
      have := ih h
      simp only [countEmptyL] at this
      omega

theorem fillEmpty_countEmpty {v : Cell} (hv : v ≠ 0) (l : Line) :
    countEmptyL (fillEmpty l v).2 = 0 := by
  induction l with
  | nil => rfl
  | cons c rest ih =>
    by_cases hc : c = 0 <;>
      simp only [fillEmpty, if_pos, if_neg, hc, ite_true, ite_false] <;>
      simp only [countEmptyL, countVal] at * <;>
      simp [hv, hc, ih]

theorem fillEmpty_diff {v : Cell} (hv : v ≠ 0) (l : Line) :
    countDiff l (fillEmpty l v).2 = countEmptyL l := by
  induction l with
  | nil => rfl
  | cons c rest ih =>
    by_cases hc : c = 0
    · subst hc
      have hsnd : (fillEmpty (0 :: rest) v).2 = v :: (fillEmpty rest v).2 := by
        simp [fillEmpty]
      rw [hsnd]
      show (if (0 : Cell) = v then 0 else 1) + countDiff rest (fillEmpty rest v).2
          = countEmptyL (0 :: rest)
      rw [if_neg (fun h => hv h.symm)]
      have hcnt : countEmptyL (0 :: rest) = 1 + countEmptyL rest := by
        simp [countEmptyL, countVal]
      omega
    · have hsnd : (fillEmpty (c :: rest) v).2 = c :: (fillEmpty rest v).2 := by
        simp [fillEmpty, hc]
      rw [hsnd]
      show (if c = c then 0 else 1) + countDiff rest (fillEmpty rest v).2
          = countEmptyL (c :: rest)
      rw [if_pos rfl]
      have hcnt : countEmptyL (c :: rest) = countEmptyL rest := by
        simp [countEmptyL, countVal, hc]
      omega

/-! ## The full-allocation line rule -/

theorem fsa_len (l : Line) (s : Cell) :
    (checkSymbolIsFullyAllocated l s).2.length = l.length := by
  unfold checkSymbolIsFullyAllocated
  split
  · exact fillEmpty_len l _
  · rfl

theorem fsa_false (l : Line) (s : Cell) :
    (checkSymbolIsFullyAllocated l s).1 = false →
      (checkSymbolIsFullyAllocated l s).2 = l := by
  unfold checkSymbolIsFullyAllocated
  split
  · exact fillEmpty_false l _
  · intro; rfl

theorem fsa_true_lt {s : Cell} (hs : s ≠ 0) (l : Line) :
    (checkSymbolIsFullyAllocated l s).1 = true →
      countEmptyL (checkSymbolIsFullyAllocated l s).2 < countEmptyL l := by
  unfold checkSymbolIsFullyAllocated
  split
  · intro h
    have h1 := fillEmpty_true_pos l (getOppositeSymbol s) h
    have h2 := fillEmpty_countEmpty (getOppositeSymbol_ne_zero hs) l
    omega
  · intro h; simp at h

theorem fsa_diff {s : Cell} (hs : s ≠ 0) (l : Line) (hl : l.length = 6) :
    countDiff l (checkSymbolIsFullyAllocated l s).2 ≤ 3 := by
  unfold checkSymbolIsFullyAllocated
  split
  · next h3 =>
    rw [fillEmpty_diff (getOppositeSymbol_ne_zero hs)]
    have := countVal_add_le l (s := 0) (t := s) (fun h => hs h.symm)
    simp only [countEmptyL]
    omega
  · simp [countDiff_self]

theorem fsa_ok {s : Cell} (hs : s ≠ 0) :
    LineRuleOK (fun l => checkSymbolIsFullyAllocated l s) :=
  ⟨fun l => fsa_len l s, fun l => fsa_false l s,
   fun l _ => fsa_true_lt hs l, fun l hl => fsa_diff hs l hl⟩

/-! ## The adjacent-pair rule -/

theorem adjacentGo_spec (l : Line) : ∀ (fuel i : Nat),
    (adjacentGo l i fuel).2.length = l.length ∧
    ((adjacentGo l i fuel).1 = false → (adjacentGo l i fuel).2 = l) ∧
    ((adjacentGo l i fuel).1 = true →
      countEmptyL (adjacentGo l i fuel).2 < countEmptyL l) ∧
    countDiff l (adjacentGo l i fuel).2 ≤ 3 := by
  intro fuel
  induction fuel with
  | zero =>
    intro i
    exact ⟨rfl, fun _ => rfl, by simp [adjacentGo],
      by simp [adjacentGo, countDiff_self]⟩
  | succ n ih =>
    intro i
    simp only [adjacentGo]
    by_cases hcond : i + 1 < l.length
    · rw [if_pos hcond]
      by_cases hmatch : l.getD i 0 = l.getD (i + 1) 0 ∧ l.getD i 0 ≠ 0
      · rw [if_pos hmatch]
        by_cases hbefore : 0 < i ∧ l.getD (i - 1) 0 = 0
        · rw [if_pos hbefore]
          refine ⟨by simp, by simp, fun _ => ?_, ?_⟩
          · exact countEmptyL_set_lt (by omega) hbefore.2
              (getOppositeSymbol_ne_zero hmatch.2)
          · exact le_trans (countDiff_set_le l (i - 1)
              (getOppositeSymbol (l.getD i 0))) (by omega)
        · rw [if_neg hbefore]
          by_cases hafter : i + 1 < l.length - 1 ∧ l.getD (i + 2) 0 = 0
          · rw [if_pos hafter]
            refine ⟨by simp, by simp, fun _ => ?_, ?_⟩
            · exact countEmptyL_set_lt (by omega) hafter.2
                (getOppositeSymbol_ne_zero hmatch.2)
            · exact le_trans (countDiff_set_le l (i + 2)
                (getOppositeSymbol (l.getD i 0))) (by omega)
          · rw [if_neg hafter]
            exact ih (i + 1)
      · rw [if_neg hmatch]
        exact ih (i + 1)
    · rw [if_neg hcond]
      exact ⟨rfl, fun _ => rfl, by simp, by simp [countDiff_self]⟩

theorem adjacent_ok : LineRuleOK checkAdjacentMatchingImplication :=
  ⟨fun l => (adjacentGo_spec l l.length 0).1,
   fun l => (adjacentGo_spec l l.length 0).2.1,
   fun l _ => (adjacentGo_spec l l.length 0).2.2.1,
   fun l _ => (adjacentGo_spec l l.length 0).2.2.2⟩

/-! ## The separated-pair rule -/

theorem separatedGo_spec (l : Line) : ∀ (fuel i : Nat),
    (separatedGo l i fuel).2.length = l.length ∧
    ((separatedGo l i fuel).1 = false → (separatedGo l i fuel).2 = l) ∧
    ((separatedGo l i fuel).1 = true →
      countEmptyL (separatedGo l i fuel).2 < countEmptyL l) ∧
    countDiff l (separatedGo l i fuel).2 ≤ 3 := by
  intro fuel
  induction fuel with
  | zero =>
    intro i
    exact ⟨rfl, fun _ => rfl, by simp [separatedGo],
      by simp [separatedGo, countDiff_self]⟩
  | succ n ih =>
    intro i
    simp only [separatedGo]
    by_cases hcond : i + 2 < l.length
    · rw [if_pos hcond]
      by_cases hmatch : l.getD i 0 = l.getD (i + 2) 0 ∧ l.getD i 0 ≠ 0 ∧
          l.getD (i + 1) 0 = 0
      · rw [if_pos hmatch]
        refine ⟨by simp, by simp, fun _ => ?_, ?_⟩
        · exact countEmptyL_set_lt (by omega) hmatch.2.2
            (getOppositeSymbol_ne_zero hmatch.2.1)
        · exact le_trans (countDiff_set_le l (i + 1)
            (getOppositeSymbol (l.getD i 0))) (by omega)
      · rw [if_neg hmatch]
        exact ih (i + 1)
    · rw [if_neg hcond]
      exact ⟨rfl, fun _ => rfl, by simp, by simp [countDiff_self]⟩

theorem separated_ok : LineRuleOK checkSeparatedMatchingImplication :=
  ⟨fun l => (separatedGo_spec l l.length 0).1,
   fun l => (separatedGo_spec l l.length 0).2.1,
   fun l _ => (separatedGo_spec l l.length 0).2.2.1,
   fun l _ => (separatedGo_spec l l.length 0).2.2.2⟩

/-! ## The edge-pair, outer-match and outer-interior rules -/

theorem pairAtEdge_ok : LineRuleOK checkPairAtEdgeImplication := by
  constructor
  · intro l
    simp only [checkPairAtEdgeImplication]
    split
    · simp
    · split <;> simp
  · intro l
    simp only [checkPairAtEdgeImplication]
    split
    · simp
    · split
      · simp
      · intro; rfl
  · intro l hl
    simp only [checkPairAtEdgeImplication]
    split
    · next h =>
      intro
      exact countEmptyL_set_lt (by omega) h.2.2 (getOppositeSymbol_ne_zero h.2.1)
    · split
      · next h =>
        intro
        exact countEmptyL_set_lt (by omega) h.2.2 (getOppositeSymbol_ne_zero h.2.1)
      · simp
  · intro l hl
    simp only [checkPairAtEdgeImplication]
    split
    · exact le_trans (countDiff_set_le l 5 (getOppositeSymbol (l.getD 0 0)))
        (by omega)
    · split
      · exact le_trans (countDiff_set_le l 0 (getOppositeSymbol (l.getD 5 0)))
          (by omega)
      · simp [countDiff_self]

theorem outerMatch_ok : LineRuleOK checkOuterMatchImplication := by
  constructor
  · intro l
    simp only [checkOuterMatchImplication]
    split <;> simp
  · intro l
    simp only [checkOuterMatchImplication]
    split
    · simp
    · intro; rfl
  · intro l hl
    simp only [checkOuterMatchImplication]
    split
    · next h =>
      intro
      refine countEmptyL_set_pair_lt (getOppositeSymbol_ne_zero h.2.1) ?_
      rcases h.2.2 with h0 | h0
      · exact Or.inl ⟨by omega, h0⟩
      · exact Or.inr ⟨by omega, by omega, h0⟩
    · simp
  · intro l hl
    simp only [checkOuterMatchImplication]
    split
    · exact le_trans (countDiff_set_pair_le l 1 4
        (getOppositeSymbol (l.getD 0 0))) (by omega)
    · simp [countDiff_self]

theorem outerInterior_ok : LineRuleOK checkOuterInteriorMatchImplication := by
  constructor
  · intro l
    simp only [checkOuterInteriorMatchImplication]
    split
    · simp
    · split <;> simp
  · intro l
    simp only [checkOuterInteriorMatchImplication]
    split
    · simp
    · split
      · simp
      · intro; rfl
  · intro l hl
    simp only [checkOuterInteriorMatchImplication]
    split
    · next h =>
      intro
      exact countEmptyL_set_lt (by omega) h.2.2 (getOppositeSymbol_ne_zero h.2.1)
    · split
      · next h =>
        intro
        exact countEmptyL_set_lt (by omega) h.2.2 (getOppositeSymbol_ne_zero h.2.1)
      · simp
  · intro l hl
    simp only [checkOuterInteriorMatchImplication]
    split
    · exact le_trans (countDiff_set_le l 5 (getOppositeSymbol (l.getD 0 0)))
        (by omega)
    · split
      · exact le_trans (countDiff_set_le l 0 (getOppositeSymbol (l.getD 1 0)))
          (by omega)
      · simp [countDiff_self]

/-! ## The fill-except loop of the opposite-overflow rule -/

theorem fillExcept_len (l : Line) (i s1 s2 : Nat) (v : Cell) :
    (fillExcept l i s1 s2 v).2.length = l.length := by
  induction l generalizing i with
  | nil => rfl
  | cons c rest ih =>
    simp only [fillExcept]
    split
    · simpa using ih (i + 1)
    · split
      · simpa using ih (i + 1)
      · simpa using ih (i + 1)

theorem fillExcept_false (l : Line) (i s1 s2 : Nat) (v : Cell) :
    (fillExcept l i s1 s2 v).1 = false → (fillExcept l i s1 s2 v).2 = l := by
  induction l generalizing i with
  | nil => intro; rfl
  | cons c rest ih =>
    simp only [fillExcept]
    split
    · intro h
      rw [ih (i + 1) h]
    · split
      · simp
      · intro h
        rw [ih (i + 1) h]

theorem fillExcept_getD_skip (l : Line) (i s1 s2 : Nat) (v : Cell) :
    ∀ j, (i + j = s1 ∨ i + j = s2) →
      (fillExcept l i s1 s2 v).2.getD j 0 = l.getD j 0 := by
  induction l generalizing i with
  | nil => intro j _; rfl
  | cons c rest ih =>
    intro j hj
    cases j with
    | zero =>
      have hskip : i = s1 ∨ i = s2 := by omega
      simp only [fillExcept, if_pos hskip]
      rfl
    | succ j2 =>
      have htail := ih (i + 1) j2 (by omega)
      simp only [fillExcept]
      split
      · simpa using htail
      · split
        · simpa using htail
        · simpa using htail

theorem fillExcept_le {v : Cell} (hv : v ≠ 0) (l : Line) (i s1 s2 : Nat) :
    countEmptyL (fillExcept l i s1 s2 v).2 ≤ countEmptyL l := by
  induction l generalizing i with
  | nil => simp [fillExcept]
  | cons c rest ih =>
    have htail := ih (i + 1)
    simp only [fillExcept]
    split
    · simp only [countEmptyL, countVal] at *
      omega
    · split
      · next hc =>
        simp only [countEmptyL, countVal, hc, if_neg hv, ite_true] at *
        omega
      · simp only [countEmptyL, countVal] at *
        omega

theorem fillExcept_true_lt {v : Cell} (hv : v ≠ 0) (l : Line) (i s1 s2 : Nat) :
    (fillExcept l i s1 s2 v).1 = true →
      countEmptyL (fillExcept l i s1 s2 v).2 < countEmptyL l := by
  induction l generalizing i with
  | nil => simp [fillExcept]
  | cons c rest ih =>
    simp only [fillExcept]
    split
    · intro h
      have := ih (i + 1) h
      simp only [countEmptyL, countVal] at *
      omega
    · split
      · next hc =>
        intro
        have := fillExcept_le hv rest (i + 1) s1 s2
        simp only [countEmptyL, countVal, hc, if_neg hv, ite_true] at *
        omega
      · intro h
        have := ih (i + 1) h
        simp only [countEmptyL, countVal] at *
        omega

theorem countDiff_cons (x y : Cell) (xs ys : Line) :
    countDiff (x :: xs) (y :: ys) = (if x = y then 0 else 1) + countDiff xs ys :=
  rfl

theorem countEmptyL_cons (x : Cell) (xs : Line) :
    countEmptyL (x :: xs) = (if x = 0 then 1 else 0) + countEmptyL xs :=
  rfl

theorem fillExcept_diff_add {v : Cell} (hv : v ≠ 0) (l : Line) (i s1 s2 : Nat) :
    countDiff l (fillExcept l i s1 s2 v).2 +
      countEmptyL (fillExcept l i s1 s2 v).2 = countEmptyL l := by
  induction l generalizing i with
  | nil => rfl
  | cons c rest ih =>
    have htail := ih (i + 1)
    by_cases hskip : i = s1 ∨ i = s2
    · have hsnd : (fillExcept (c :: rest) i s1 s2 v).2
          = c :: (fillExcept rest (i + 1) s1 s2 v).2 := by
        simp only [fillExcept, if_pos hskip]
      rw [hsnd, countDiff_cons, countEmptyL_cons, countEmptyL_cons, if_pos rfl]
      omega
    · by_cases hc : c = 0
      · have hsnd : (fillExcept (c :: rest) i s1 s2 v).2
            = v :: (fillExcept rest (i + 1) s1 s2 v).2 := by
          simp only [fillExcept, if_neg hskip, if_pos hc]
        subst hc
        rw [hsnd, countDiff_cons, countEmptyL_cons, countEmptyL_cons,
          if_neg (Ne.symm hv), if_neg hv, if_pos rfl]
        omega
      · have hsnd : (fillExcept (c :: rest) i s1 s2 v).2
            = c :: (fillExcept rest (i + 1) s1 s2 v).2 := by
          simp only [fillExcept, if_neg hskip, if_neg hc]
        rw [hsnd, countDiff_cons, countEmptyL_cons, countEmptyL_cons,
          if_pos rfl, if_neg hc]
        omega

/-! ## Helpers for the constraint-scan rules -/

theorem forcedValue_ne_zero {t : CKind} {x : Cell} (hx : x ≠ 0) :
    (if t = CKind.EQUAL then x else getOppositeSymbol x) ≠ 0 := by
  split
  · exact hx
  · exact getOppositeSymbol_ne_zero hx

theorem isEmptyEquals_spec {g : Grid} {c : Constraint}
    (h : isEmptyEqualsConstraint g c = true) :
    c.type = CKind.EQUAL ∧ getCell g c.cells.1.1 c.cells.1.2 = 0 ∧
      getCell g c.cells.2.1 c.cells.2.2 = 0 := by
  simpa [isEmptyEqualsConstraint] using h

theorem isEmptyOpposite_spec {g : Grid} {c : Constraint}
    (h : isEmptyOppositeConstraint g c = true) :
    c.type = CKind.OPPOSITE ∧ getCell g c.cells.1.1 c.cells.1.2 = 0 ∧
      getCell g c.cells.2.1 c.cells.2.2 = 0 := by
  simpa [isEmptyOppositeConstraint] using h

/-- The effect of a rule writing `v` into indices `a` and `b` of row `r`,
when at least one of the two indices addresses an empty cell. -/
theorem rowPairWrite_spec {g : Grid} (hg : GridWF g) {r a b : Nat} {v : Cell}
    (hr : r < 6) (hv : v ≠ 0)
    (hemp : (a < 6 ∧ (g.getD r []).getD a 0 = 0) ∨
      (b < 6 ∧ b ≠ a ∧ (g.getD r []).getD b 0 = 0)) :
    countEmptyG (g.set r (((g.getD r []).set a v).set b v)) < countEmptyG g ∧
    gridDiff g (g.set r (((g.getD r []).set a v).set b v)) ≤ 3 ∧
    GridWF (g.set r (((g.getD r []).set a v).set b v)) := by
  have hrg : r < g.length := by rw [hg.1]; exact hr
  have hrow : (g.getD r []).length = 6 := rowLen hg hrg
  have hlt : countEmptyL (((g.getD r []).set a v).set b v) <
      countEmptyL (g.getD r []) := by
    refine countEmptyL_set_pair_lt hv ?_
    rcases hemp with ⟨ha, h0⟩ | ⟨hb, hba, h0⟩
    · exact Or.inl ⟨by omega, h0⟩
    · exact Or.inr ⟨by omega, hba, h0⟩
  refine ⟨?_, ?_, ?_⟩
  · have hadd := countEmptyG_set_add g (((g.getD r []).set a v).set b v) hrg
    omega
  · rw [gridDiff_set_eq g _ hrg]
    exact le_trans (countDiff_set_pair_le _ a b v) (by omega)
  · exact GridWF_set hg (by simpa using hrow) r

/-- The effect of a rule writing `v` into indices `a` and `b` of column `j`,
when at least one of the two indices addresses an empty cell. -/
theorem colPairWrite_spec {g : Grid} (hg : GridWF g) {j a b : Nat} {v : Cell}
    (hj : j < 6) (hv : v ≠ 0)
    (hemp : (a < 6 ∧ (getColumn g j).getD a 0 = 0) ∨
      (b < 6 ∧ b ≠ a ∧ (getColumn g j).getD b 0 = 0)) :
    countEmptyG (setColumn g j (((getColumn g j).set a v).set b v)) < countEmptyG g ∧
    gridDiff g (setColumn g j (((getColumn g j).set a v).set b v)) ≤ 3 ∧
    GridWF (setColumn g j (((getColumn g j).set a v).set b v)) := by
  have hcol : (getColumn g j).length = 6 := by
    rw [getColumn_length, hg.1]
  have hlen : (((getColumn g j).set a v).set b v).length = g.length := by
    simp [hcol, hg.1]
  have hlt : countEmptyL (((getColumn g j).set a v).set b v) <
      countEmptyL (getColumn g j) := by
    refine countEmptyL_set_pair_lt hv ?_
    rcases hemp with ⟨ha, h0⟩ | ⟨hb, hba, h0⟩
    · exact Or.inl ⟨by omega, h0⟩
    · exact Or.inr ⟨by omega, hba, h0⟩
  refine ⟨?_, ?_, ?_⟩
  · have hadd := countEmptyG_setColumn_add g (((getColumn g j).set a v).set b v)
      (fun r hr => by rw [hg.2 r hr]; exact hj) hlen
    omega
  · exact le_trans (gridDiff_setColumn_le g j _)
      (le_trans (countDiff_set_pair_le _ a b v) (by omega))
  · exact GridWF_setColumn hg hlen

theorem minmax_emp_of_both {l : Line} {x y : Nat} (hx : x < 6) (hy : y < 6)
    (hex : l.getD x 0 = 0) (hey : l.getD y 0 = 0) :
    (min x y < 6 ∧ l.getD (min x y) 0 = 0) ∨
      (max x y < 6 ∧ max x y ≠ min x y ∧ l.getD (max x y) 0 = 0) := by
  left
  rcases min_choice x y with hm | hm <;> rw [hm]
  · exact ⟨hx, hex⟩
  · exact ⟨hy, hey⟩

theorem minmax_emp_of_first {l : Line} {x y : Nat} (hx : x < 6) (hne : x ≠ y)
    (hex : l.getD x 0 = 0) :
    (min x y < 6 ∧ l.getD (min x y) 0 = 0) ∨
      (max x y < 6 ∧ max x y ≠ min x y ∧ l.getD (max x y) 0 = 0) := by
  rcases Nat.le_total x y with hle | hle
  · left
    have hm : min x y = x := by omega
    rw [hm]
    exact ⟨hx, hex⟩
  · right
    have hm : min x y = y := by omega
    have hM : max x y = x := by omega
    rw [hm, hM]
    exact ⟨hx, by omega, hex⟩

/-! ## The basic relation rule -/

theorem checkConstraintsGo_false (g : Grid) (cs : List Constraint) :
    (checkConstraintsGo g cs).1 = false → (checkConstraintsGo g cs).2 = g := by
  induction cs with
  | nil => intro; rfl
  | cons c rest ih =>
    simp only [checkConstraintsGo]
    split
    · exact ih
    · split
      · simp
      · split
        · simp
        · exact ih

theorem checkConstraintsGo_true {g : Grid} (hg : GridWF g) :
    ∀ cs : List Constraint, ConsWF cs →
    (checkConstraintsGo g cs).1 = true →
      countEmptyG (checkConstraintsGo g cs).2 < countEmptyG g ∧
      gridDiff g (checkConstraintsGo g cs).2 ≤ 3 ∧
      GridWF (checkConstraintsGo g cs).2 := by
  intro cs
  induction cs with
  | nil => intro _ h; simp [checkConstraintsGo] at h
  | cons c rest ih =>
    intro hcs
    have hc := hcs c (List.mem_cons_self c rest)
    have hrest : ConsWF rest := fun d hd => hcs d (List.mem_cons_of_mem c hd)
    simp only [checkConstraintsGo]
    split
    · exact ih hrest
    · next hskip =>
      split
      · next h1 =>
        intro
        have h2 : getCell g c.cells.2.1 c.cells.2.2 = 0 := by
          by_cases h : getCell g c.cells.2.1 c.cells.2.2 = 0
          · exact h
          · exact absurd (Or.inr ⟨h1, h⟩) hskip
        have hr2 : c.cells.2.1 < g.length := by rw [hg.1]; exact hc.2.2.1
        refine ⟨?_, ?_, GridWF_setCell hg _ _ _⟩
        · exact countEmptyG_setCell_lt hr2
            (by rw [rowLen hg hr2]; exact hc.2.2.2) h2 (forcedValue_ne_zero h1)
        · exact le_trans (gridDiff_setCell_le g _ _ _) (by omega)
      · next h1 =>
        split
        · next h2 =>
          intro
          have h1z : getCell g c.cells.1.1 c.cells.1.2 = 0 := by
            by_cases h : getCell g c.cells.1.1 c.cells.1.2 = 0
            · exact h
            · exact absurd h h1
          have hr1 : c.cells.1.1 < g.length := by rw [hg.1]; exact hc.1
          refine ⟨?_, ?_, GridWF_setCell hg _ _ _⟩
          · exact countEmptyG_setCell_lt hr1
              (by rw [rowLen hg hr1]; exact hc.2.1) h1z (forcedValue_ne_zero h2)
          · exact le_trans (gridDiff_setCell_le g _ _ _) (by omega)
        · exact ih hrest

/-! ## The relation-vs-count rule -/

theorem eqConflictGo_false (g : Grid) (cs : List Constraint) :
    (eqConflictGo g cs).1 = false → (eqConflictGo g cs).2 = g := by
  induction cs with
  | nil => intro; rfl
  | cons c rest ih =>
    simp only [eqConflictGo]
    split
    · split
      · simp
      · split
        · simp
        · exact ih
    · split
      · simp
      · split
        · simp
        · exact ih

theorem eqConflictGo_true {g : Grid} (hg : GridWF g) :
    ∀ cs : List Constraint, ConsWF cs →
    (∀ c ∈ cs, isEmptyEqualsConstraint g c = true) →
    (eqConflictGo g cs).1 = true →
      countEmptyG (eqConflictGo g cs).2 < countEmptyG g ∧
      gridDiff g (eqConflictGo g cs).2 ≤ 3 ∧
      GridWF (eqConflictGo g cs).2 := by
  intro cs
  induction cs with
  | nil => intro _ _ h; simp [eqConflictGo] at h
  | cons c rest ih =>
    intro hcs hemp
    have hc := hcs c (List.mem_cons_self c rest)
    have he := isEmptyEquals_spec (hemp c (List.mem_cons_self c rest))
    have hrest := ih (fun d hd => hcs d (List.mem_cons_of_mem c hd))
      (fun d hd => hemp d (List.mem_cons_of_mem c hd))
    have h2z : (2 : Cell) ≠ 0 := by decide
    have h1z : (1 : Cell) ≠ 0 := by decide
    simp only [eqConflictGo]
    split
    · split
      · intro
        exact rowPairWrite_spec hg hc.1 h2z (Or.inl ⟨hc.2.1, he.2.1⟩)
      · split
        · intro
          exact rowPairWrite_spec hg hc.1 h1z (Or.inl ⟨hc.2.1, he.2.1⟩)
        · exact hrest
    · next hh =>
      have h1 : c.cells.1.1 < g.length := by rw [hg.1]; exact hc.1
      have hcol1 : (getColumn g c.cells.1.2).getD c.cells.1.1 0 = 0 := by
        rw [getColumn_getD_eq g c.cells.1.2 h1]
        exact he.2.1
      split
      · intro
        exact colPairWrite_spec hg hc.2.1 h2z (Or.inl ⟨hc.1, hcol1⟩)
      · split
        · intro
          exact colPairWrite_spec hg hc.2.1 h1z (Or.inl ⟨hc.1, hcol1⟩)
        · exact hrest

/-! ## The EQUAL-neighbour rule -/

theorem eqNeighbourGo_false (g : Grid) (cs : List Constraint) :
    (eqNeighbourGo g cs).1 = false → (eqNeighbourGo g cs).2 = g := by
  induction cs with
  | nil => intro; rfl
  | cons c rest ih =>
    simp only [eqNeighbourGo]
    split
    · split
      · simp
      · split
        · simp
        · exact ih
    · split
      · simp
      · split
        · simp
        · exact ih

theorem eqNeighbourGo_true {g : Grid} (hg : GridWF g) :
    ∀ cs : List Constraint, ConsWF cs →
    (∀ c ∈ cs, isEmptyEqualsConstraint g c = true) →
    (eqNeighbourGo g cs).1 = true →
      countEmptyG (eqNeighbourGo g cs).2 < countEmptyG g ∧
      gridDiff g (eqNeighbourGo g cs).2 ≤ 3 ∧
      GridWF (eqNeighbourGo g cs).2 := by
  intro cs
  induction cs with
  | nil => intro _ _ h; simp [eqNeighbourGo] at h
  | cons c rest ih =>
    intro hcs hemp
    have hc := hcs c (List.mem_cons_self c rest)
    have he := isEmptyEquals_spec (hemp c (List.mem_cons_self c rest))
    have hrest := ih (fun d hd => hcs d (List.mem_cons_of_mem c hd))
      (fun d hd => hemp d (List.mem_cons_of_mem c hd))
    simp only [eqNeighbourGo]
    split
    · next hh =>
      have he2 : (g.getD c.cells.1.1 []).getD c.cells.2.2 0 = 0 := by
        rw [hh]
        exact he.2.2
      have hemp2 := minmax_emp_of_both hc.2.1 hc.2.2.2 he.2.1 he2
      split
      · next hb =>
        intro
        exact rowPairWrite_spec hg hc.1 (getOppositeSymbol_ne_zero hb.2) hemp2
      · split
        · next hb =>
          intro
          exact rowPairWrite_spec hg hc.1 (getOppositeSymbol_ne_zero hb.2) hemp2
        · exact hrest
    · next hh =>
      have h1 : c.cells.1.1 < g.length := by rw [hg.1]; exact hc.1
      have hcol1 : (getColumn g c.cells.1.2).getD c.cells.1.1 0 = 0 := by
        rw [getColumn_getD_eq g c.cells.1.2 h1]
        exact he.2.1
      have hemp2 := minmax_emp_of_first hc.1 hh hcol1
      split
      · next hb =>
        intro
        exact colPairWrite_spec hg hc.2.1 (getOppositeSymbol_ne_zero hb.2) hemp2
      · split
        · next hb =>
          intro
          exact colPairWrite_spec hg hc.2.1 (getOppositeSymbol_ne_zero hb.2) hemp2
        · exact hrest

/-! ## The EQUAL-edge rule -/

theorem eqEdgeGo_false (g : Grid) (cs : List Constraint) :
    (eqEdgeGo g cs).1 = false → (eqEdgeGo g cs).2 = g := by
  induction cs with
  | nil => intro; rfl
  | cons c rest ih =>
    simp only [eqEdgeGo]
    split
    · split
      · simp
      · split
        · simp
        · exact ih
    · split
      · simp
      · split
        · simp
        · exact ih

theorem eqEdgeGo_true {g : Grid} (hg : GridWF g) :
    ∀ cs : List Constraint, ConsWF cs →
    (∀ c ∈ cs, isEmptyEqualsConstraint g c = true) →
    (eqEdgeGo g cs).1 = true →
      countEmptyG (eqEdgeGo g cs).2 < countEmptyG g ∧
      gridDiff g (eqEdgeGo g cs).2 ≤ 3 ∧
      GridWF (eqEdgeGo g cs).2 := by
  intro cs
  induction cs with
  | nil => intro _ _ h; simp [eqEdgeGo] at h
  | cons c rest ih =>
    intro hcs hemp
    have hc := hcs c (List.mem_cons_self c rest)
    have he := isEmptyEquals_spec (hemp c (List.mem_cons_self c rest))
    have hrest := ih (fun d hd => hcs d (List.mem_cons_of_mem c hd))
      (fun d hd => hemp d (List.mem_cons_of_mem c hd))
    simp only [eqEdgeGo]
    split
    · next hh =>
      have he2 : (g.getD c.cells.1.1 []).getD c.cells.2.2 0 = 0 := by
        rw [hh]
        exact he.2.2
      have hemp2 := minmax_emp_of_both hc.2.1 hc.2.2.2 he.2.1 he2
      split
      · next hb =>
        intro
        exact rowPairWrite_spec hg hc.1 (getOppositeSymbol_ne_zero hb.2) hemp2
      · split
        · next hb =>
          intro
          exact rowPairWrite_spec hg hc.1 (getOppositeSymbol_ne_zero hb.2) hemp2
        · exact hrest
    · next hh =>
      have h1 : c.cells.1.1 < g.length := by rw [hg.1]; exact hc.1
      have hcol1 : (getColumn g c.cells.1.2).getD c.cells.1.1 0 = 0 := by
        rw [getColumn_getD_eq g c.cells.1.2 h1]
        exact he.2.1
      have hemp2 := minmax_emp_of_first hc.1 hh hcol1
      split
      · next hb =>
        intro
        exact colPairWrite_spec hg hc.2.1 (getOppositeSymbol_ne_zero hb.2) hemp2
      · split
        · next hb =>
          intro
          exact colPairWrite_spec hg hc.2.1 (getOppositeSymbol_ne_zero hb.2) hemp2
        · exact hrest

/-! ## The opposite-overflow rule -/

/-- The effect of the fill-except write into row `r`, when the rule's count
precondition holds and the first skipped index addresses an empty cell. -/
theorem rowFillWrite_spec {g : Grid} (hg : GridWF g) {r i1 i2 : Nat} {v s : Cell}
    (hr : r < 6) (hv : v ≠ 0) (hs : s ≠ 0)
    (hcnt : countVal (g.getD r []) s = 2)
    (hi1 : i1 < 6) (hemp1 : (g.getD r []).getD i1 0 = 0)
    (hfired : (fillExcept (g.getD r []) 0 i1 i2 v).1 = true) :
    countEmptyG (g.set r (fillExcept (g.getD r []) 0 i1 i2 v).2) < countEmptyG g ∧
    gridDiff g (g.set r (fillExcept (g.getD r []) 0 i1 i2 v).2) ≤ 3 ∧
    GridWF (g.set r (fillExcept (g.getD r []) 0 i1 i2 v).2) := by
  have hrg : r < g.length := by rw [hg.1]; exact hr
  have hrow : (g.getD r []).length = 6 := rowLen hg hrg
  have hlt := fillExcept_true_lt hv (g.getD r []) 0 i1 i2 hfired
  have hflen := fillExcept_len (g.getD r []) 0 i1 i2 v
  refine ⟨?_, ?_, ?_⟩
  · have hadd := countEmptyG_set_add g (fillExcept (g.getD r []) 0 i1 i2 v).2 hrg
    omega
  · rw [gridDiff_set_eq g _ hrg]
    have hdiff := fillExcept_diff_add hv (g.getD r []) 0 i1 i2
    have hle4 : countEmptyL (g.getD r []) + countVal (g.getD r []) s ≤ 6 := by
      have := countVal_add_le (g.getD r []) (s := 0) (t := s) (fun h => hs h.symm)
      simp only [countEmptyL]
      omega
    have hone : 1 ≤ countEmptyL (fillExcept (g.getD r []) 0 i1 i2 v).2 := by
      refine countVal_pos _ (j := i1) (by omega) ?_
      rw [fillExcept_getD_skip (g.getD r []) 0 i1 i2 v i1 (Or.inl (by omega))]
      exact hemp1
    omega
  · exact GridWF_set hg (by omega) r

/-- The effect of the fill-except write into column `j`, when the rule's
count precondition holds and the first skipped index addresses an empty
cell. -/
theorem colFillWrite_spec {g : Grid} (hg : GridWF g) {j i1 i2 : Nat} {v s : Cell}
    (hj : j < 6) (hv : v ≠ 0) (hs : s ≠ 0)
    (hcnt : countVal (getColumn g j) s = 2)
    (hi1 : i1 < 6) (hemp1 : (getColumn g j).getD i1 0 = 0)
    (hfired : (fillExcept (getColumn g j) 0 i1 i2 v).1 = true) :
    countEmptyG (setColumn g j (fillExcept (getColumn g j) 0 i1 i2 v).2) <
      countEmptyG g ∧
    gridDiff g (setColumn g j (fillExcept (getColumn g j) 0 i1 i2 v).2) ≤ 3 ∧
    GridWF (setColumn g j (fillExcept (getColumn g j) 0 i1 i2 v).2) := by
  have hcol : (getColumn g j).length = 6 := by rw [getColumn_length, hg.1]
  have hlt := fillExcept_true_lt hv (getColumn g j) 0 i1 i2 hfired
  have hflen := fillExcept_len (getColumn g j) 0 i1 i2 v
  have hlen : (fillExcept (getColumn g j) 0 i1 i2 v).2.length = g.length := by
    rw [hflen, getColumn_length]
  refine ⟨?_, ?_, ?_⟩
  · have hadd := countEmptyG_setColumn_add g (fillExcept (getColumn g j) 0 i1 i2 v).2
      (fun t ht => by rw [hg.2 t ht]; exact hj) hlen
    omega
  · refine le_trans (gridDiff_setColumn_le g j _) ?_
    have hdiff := fillExcept_diff_add hv (getColumn g j) 0 i1 i2
    have hle4 : countEmptyL (getColumn g j) + countVal (getColumn g j) s ≤ 6 := by
      have := countVal_add_le (getColumn g j) (s := 0) (t := s) (fun h => hs h.symm)
      simp only [countEmptyL]
      omega
    have hone : 1 ≤ countEmptyL (fillExcept (getColumn g j) 0 i1 i2 v).2 := by
      refine countVal_pos _ (j := i1) (by omega) ?_
      rw [fillExcept_getD_skip (getColumn g j) 0 i1 i2 v i1 (Or.inl (by omega))]
      exact hemp1
    omega
  · exact GridWF_setColumn hg hlen

theorem oppImplGo_false (g : Grid) (cs : List Constraint) :
    (oppImplGo g cs).1 = false → (oppImplGo g cs).2 = g := by
  induction cs with
  | nil => intro; rfl
  | cons c rest ih =>
    simp only [oppImplGo]
    split
    · split
      · exact ih
      · split
        · split
          · simp
          · next hr =>
            have heq : g.set c.cells.1.1
                (fillExcept (g.getD c.cells.1.1 []) 0 c.cells.1.2 c.cells.2.2 2).2
                = g := by
              rw [fillExcept_false _ _ _ _ _ (by simpa using hr), set_getD_self]
            rw [heq]
            exact ih
        · split
          · split
            · simp
            · next hr =>
              have heq : g.set c.cells.1.1
                  (fillExcept (g.getD c.cells.1.1 []) 0 c.cells.1.2 c.cells.2.2 1).2
                  = g := by
                rw [fillExcept_false _ _ _ _ _ (by simpa using hr), set_getD_self]
              rw [heq]
              exact ih
          · exact ih
    · split
      · exact ih
      · split
        · split
          · simp
          · next hr =>
            have heq : setColumn g c.cells.1.2
                (fillExcept (getColumn g c.cells.1.2) 0 c.cells.1.1 c.cells.2.1 2).2
                = g := by
              rw [fillExcept_false _ _ _ _ _ (by simpa using hr), setColumn_self]
            rw [heq]
            exact ih
        · split
          · split
            · simp
            · next hr =>
              have heq : setColumn g c.cells.1.2
                  (fillExcept (getColumn g c.cells.1.2) 0 c.cells.1.1 c.cells.2.1 1).2
                  = g := by
                rw [fillExcept_false _ _ _ _ _ (by simpa using hr), setColumn_self]
              rw [heq]
              exact ih
          · exact ih

theorem oppImplGo_true {g : Grid} (hg : GridWF g) :
    ∀ cs : List Constraint, ConsWF cs →
    (∀ c ∈ cs, isEmptyOppositeConstraint g c = true) →
    (oppImplGo g cs).1 = true →
      countEmptyG (oppImplGo g cs).2 < countEmptyG g ∧
      gridDiff g (oppImplGo g cs).2 ≤ 3 ∧
      GridWF (oppImplGo g cs).2 := by
  intro cs
  induction cs with
  | nil => intro _ _ h; simp [oppImplGo] at h
  | cons c rest ih =>
    intro hcs hemp
    have hc := hcs c (List.mem_cons_self c rest)
    have he := isEmptyOpposite_spec (hemp c (List.mem_cons_self c rest))
    have hrest := ih (fun d hd => hcs d (List.mem_cons_of_mem c hd))
      (fun d hd => hemp d (List.mem_cons_of_mem c hd))
    have h2z : (2 : Cell) ≠ 0 := by decide
    have h1z : (1 : Cell) ≠ 0 := by decide
    simp only [oppImplGo]
    split
    · next hh =>
      split
      · exact hrest
      · split
        · next hcnt =>
          split
          · next hr =>
            intro
            exact rowFillWrite_spec hg hc.1 h2z h1z hcnt hc.2.1 he.2.1 hr
          · next hr =>
            have heq : g.set c.cells.1.1
                (fillExcept (g.getD c.cells.1.1 []) 0 c.cells.1.2 c.cells.2.2 2).2
                = g := by
              rw [fillExcept_false _ _ _ _ _ (by simpa using hr), set_getD_self]
            rw [heq]
            exact hrest
        · split
          · next hcnt =>
            split
            · next hr =>
              intro
              exact rowFillWrite_spec hg hc.1 h1z h2z hcnt hc.2.1 he.2.1 hr
            · next hr =>
              have heq : g.set c.cells.1.1
                  (fillExcept (g.getD c.cells.1.1 []) 0 c.cells.1.2 c.cells.2.2 1).2
                  = g := by
                rw [fillExcept_false _ _ _ _ _ (by simpa using hr), set_getD_self]
              rw [heq]
              exact hrest
          · exact hrest
    · next hh =>
      have h1 : c.cells.1.1 < g.length := by rw [hg.1]; exact hc.1
      have hcol1 : (getColumn g c.cells.1.2).getD c.cells.1.1 0 = 0 := by
        rw [getColumn_getD_eq g c.cells.1.2 h1]
        exact he.2.1
      split
      · exact hrest
      · split
        · next hcnt =>
          split
          · next hr =>
            intro
            exact colFillWrite_spec hg hc.2.1 h2z h1z hcnt hc.1 hcol1 hr
          · next hr =>
            have heq : setColumn g c.cells.1.2
                (fillExcept (getColumn g c.cells.1.2) 0 c.cells.1.1 c.cells.2.1 2).2
                = g := by
              rw [fillExcept_false _ _ _ _ _ (by simpa using hr), setColumn_self]
            rw [heq]
            exact hrest
        · split
          · next hcnt =>
            split
            · next hr =>
              intro
              exact colFillWrite_spec hg hc.2.1 h1z h2z hcnt hc.1 hcol1 hr
            · next hr =>
              have heq : setColumn g c.cells.1.2
                  (fillExcept (getColumn g c.cells.1.2) 0 c.cells.1.1 c.cells.2.1 1).2
                  = g := by
                rw [fillExcept_false _ _ _ _ _ (by simpa using hr), setColumn_self]
              rw [heq]
              exact hrest
          · exact hrest

/-! ## Wrappers over the filtered constraint lists -/

theorem checkFilledCellsEqualsConflict_false (g : Grid) (cs : List Constraint) :
    (checkFilledCellsEqualsConflict g cs).1 = false →
      (checkFilledCellsEqualsConflict g cs).2 = g :=
  eqConflictGo_false g _

theorem checkFilledCellsEqualsConflict_true {g : Grid} (hg : GridWF g)
    {cs : List Constraint} (hcs : ConsWF cs) :
    (checkFilledCellsEqualsConflict g cs).1 = true →
      countEmptyG (checkFilledCellsEqualsConflict g cs).2 < countEmptyG g ∧
      gridDiff g (checkFilledCellsEqualsConflict g cs).2 ≤ 3 ∧
      GridWF (checkFilledCellsEqualsConflict g cs).2 :=
  eqConflictGo_true hg _ (fun c hm => hcs c (List.mem_filter.mp hm).1)
    (fun c hm => (List.mem_filter.mp hm).2)

theorem checkEqualConstraintNeighbourImplication_false (g : Grid)
    (cs : List Constraint) :
    (checkEqualConstraintNeighbourImplication g cs).1 = false →
      (checkEqualConstraintNeighbourImplication g cs).2 = g :=
  eqNeighbourGo_false g _

theorem checkEqualConstraintNeighbourImplication_true {g : Grid} (hg : GridWF g)
    {cs : List Constraint} (hcs : ConsWF cs) :
    (checkEqualConstraintNeighbourImplication g cs).1 = true →
      countEmptyG (checkEqualConstraintNeighbourImplication g cs).2 < countEmptyG g ∧
      gridDiff g (checkEqualConstraintNeighbourImplication g cs).2 ≤ 3 ∧
      GridWF (checkEqualConstraintNeighbourImplication g cs).2 :=
  eqNeighbourGo_true hg _ (fun c hm => hcs c (List.mem_filter.mp hm).1)
    (fun c hm => (List.mem_filter.mp hm).2)

theorem checkEmptyOuterEqualsOppositeEdgeFilledImplication_false (g : Grid)
    (cs : List Constraint) :
    (checkEmptyOuterEqualsOppositeEdgeFilledImplication g cs).1 = false →
      (checkEmptyOuterEqualsOppositeEdgeFilledImplication g cs).2 = g :=
  eqEdgeGo_false g _

theorem checkEmptyOuterEqualsOppositeEdgeFilledImplication_true {g : Grid}
    (hg : GridWF g) {cs : List Constraint} (hcs : ConsWF cs) :
    (checkEmptyOuterEqualsOppositeEdgeFilledImplication g cs).1 = true →
      countEmptyG (checkEmptyOuterEqualsOppositeEdgeFilledImplication g cs).2 <
        countEmptyG g ∧
      gridDiff g (checkEmptyOuterEqualsOppositeEdgeFilledImplication g cs).2 ≤ 3 ∧
      GridWF (checkEmptyOuterEqualsOppositeEdgeFilledImplication g cs).2 :=
  eqEdgeGo_true hg _ (fun c hm => hcs c (List.mem_filter.mp hm).1)
    (fun c hm => (List.mem_filter.mp hm).2)

theorem checkFilledCellsOppositeImplication_false (g : Grid)
    (cs : List Constraint) :
    (checkFilledCellsOppositeImplication g cs).1 = false →
      (checkFilledCellsOppositeImplication g cs).2 = g :=
  oppImplGo_false g _

theorem checkFilledCellsOppositeImplication_true {g : Grid} (hg : GridWF g)
    {cs : List Constraint} (hcs : ConsWF cs) :
    (checkFilledCellsOppositeImplication g cs).1 = true →
      countEmptyG (checkFilledCellsOppositeImplication g cs).2 < countEmptyG g ∧
      gridDiff g (checkFilledCellsOppositeImplication g cs).2 ≤ 3 ∧
      GridWF (checkFilledCellsOppositeImplication g cs).2 :=
  oppImplGo_true hg _ (fun c hm => hcs c (List.mem_filter.mp hm).1)
    (fun c hm => (List.mem_filter.mp hm).2)

/-! ## The per-line scan loops of the driver -/

theorem lineGo_false {f : Line → Bool × Line} (hf : LineRuleOK f) :
    ∀ (idx : List Nat) (g : Grid),
    (lineGo f g idx).1 = false → (lineGo f g idx).2 = g := by
  intro idx
  induction idx with
  | nil => intro g _; rfl
  | cons i rest ih =>
    intro g
    simp only [lineGo]
    split
    · simp
    · next hr =>
      have hg1 : g.set i (f (g.getD i [])).2 = g := by
        rw [hf.false_eq _ (by simpa using hr), set_getD_self]
      rw [hg1]
      split
      · simp
      · next hc =>
        have hg2 : setColumn g i (f (getColumn g i)).2 = g := by
          rw [hf.false_eq _ (by simpa using hc), setColumn_self]
        rw [hg2]
        exact ih g

theorem lineGo_true {f : Line → Bool × Line} (hf : LineRuleOK f) :
    ∀ (idx : List Nat) (g : Grid), GridWF g → (∀ i ∈ idx, i < 6) →
    (lineGo f g idx).1 = true →
      countEmptyG (lineGo f g idx).2 < countEmptyG g ∧
      gridDiff g (lineGo f g idx).2 ≤ 3 ∧
      GridWF (lineGo f g idx).2 := by
  intro idx
  induction idx with
  | nil => intro g _ _ h; simp [lineGo] at h
  | cons i rest ih =>
    intro g hg hidx
    have hi : i < 6 := hidx i (List.mem_cons_self i rest)
    have hig : i < g.length := by rw [hg.1]; exact hi
    have hrow6 : (g.getD i []).length = 6 := rowLen hg hig
    simp only [lineGo]
    split
    · next hr =>
      intro
      have hlt := hf.true_lt _ hrow6 hr
      have hlen := hf.len (g.getD i [])
      refine ⟨?_, ?_, ?_⟩
      · have hadd := countEmptyG_set_add g (f (g.getD i [])).2 hig
        show countEmptyG (g.set i (f (g.getD i [])).2) < countEmptyG g
        omega
      · rw [gridDiff_set_eq g _ hig]
        exact hf.diff_le _ hrow6
      · exact GridWF_set hg (by omega) i
    · next hr =>
      have hg1 : g.set i (f (g.getD i [])).2 = g := by
        rw [hf.false_eq _ (by simpa using hr), set_getD_self]
      rw [hg1]
      have hcol6 : (getColumn g i).length = 6 := by rw [getColumn_length, hg.1]
      split
      · next hcf =>
        intro
        have hlt := hf.true_lt _ hcol6 hcf
        have hlen : (f (getColumn g i)).2.length = g.length := by
          rw [hf.len (getColumn g i), getColumn_length]
        refine ⟨?_, ?_, ?_⟩
        · have hadd := countEmptyG_setColumn_add g (f (getColumn g i)).2
            (fun t ht => by rw [hg.2 t ht]; exact hi) hlen
          show countEmptyG (setColumn g i (f (getColumn g i)).2) < countEmptyG g
          omega
        · exact le_trans (gridDiff_setColumn_le g i _) (hf.diff_le _ hcol6)
        · exact GridWF_setColumn hg hlen
      · next hcf =>
        have hg2 : setColumn g i (f (getColumn g i)).2 = g := by
          rw [hf.false_eq _ (by simpa using hcf), setColumn_self]
        rw [hg2]
        exact ih g hg (fun t ht => hidx t (List.mem_cons_of_mem i ht))

theorem fullAllocGo_false :
    ∀ (idx : List Nat) (g : Grid),
    (fullAllocGo g idx).1 = false → (fullAllocGo g idx).2 = g := by
  intro idx
  induction idx with
  | nil => intro g _; rfl
  | cons i rest ih =>
    intro g
    simp only [fullAllocGo]
    split
    · simp
    · next hr1 =>
      have hga : g.set i (checkSymbolIsFullyAllocated (g.getD i []) 1).2 = g := by
        rw [fsa_false _ _ (by simpa using hr1), set_getD_self]
      rw [hga]
      split
      · simp
      · next hr2 =>
        have hgb : g.set i (checkSymbolIsFullyAllocated (g.getD i []) 2).2 = g := by
          rw [fsa_false _ _ (by simpa using hr2), set_getD_self]
        rw [hgb]
        split
        · simp
        · next hc1 =>
          have hgc : setColumn g i (checkSymbolIsFullyAllocated (getColumn g i) 1).2
              = g := by
            rw [fsa_false _ _ (by simpa using hc1), setColumn_self]
          rw [hgc]
          split
          · simp
          · next hc2 =>
            have hgd : setColumn g i
                (checkSymbolIsFullyAllocated (getColumn g i) 2).2 = g := by
              rw [fsa_false _ _ (by simpa using hc2), setColumn_self]
            rw [hgd]
            exact ih g

theorem fullAllocGo_true :
    ∀ (idx : List Nat) (g : Grid), GridWF g → (∀ i ∈ idx, i < 6) →
    (fullAllocGo g idx).1 = true →
      countEmptyG (fullAllocGo g idx).2 < countEmptyG g ∧
      gridDiff g (fullAllocGo g idx).2 ≤ 3 ∧
      GridWF (fullAllocGo g idx).2 := by
  have h1 := fsa_ok (s := 1) (by decide)
  have h2 := fsa_ok (s := 2) (by decide)
  intro idx
  induction idx with
  | nil => intro g _ _ h; simp [fullAllocGo] at h
  | cons i rest ih =>
    intro g hg hidx
    have hi : i < 6 := hidx i (List.mem_cons_self i rest)
    have hig : i < g.length := by rw [hg.1]; exact hi
    have hrow6 : (g.getD i []).length = 6 := rowLen hg hig
    have hcol6 : (getColumn g i).length = 6 := by rw [getColumn_length, hg.1]
    simp only [fullAllocGo]
    split
    · next hr =>
      intro
      have hlt := h1.true_lt _ hrow6 hr
      have hlen := h1.len (g.getD i [])
      refine ⟨?_, ?_, ?_⟩
      · have hadd := countEmptyG_set_add g (checkSymbolIsFullyAllocated (g.getD i []) 1).2 hig
        show countEmptyG (g.set i (checkSymbolIsFullyAllocated (g.getD i []) 1).2) <
          countEmptyG g
        omega
      · rw [gridDiff_set_eq g _ hig]
        exact h1.diff_le _ hrow6
      · exact GridWF_set hg (by omega) i
    · next hr1 =>
      have hga : g.set i (checkSymbolIsFullyAllocated (g.getD i []) 1).2 = g := by
        rw [fsa_false _ _ (by simpa using hr1), set_getD_self]
      rw [hga]
      split
      · next hr =>
        intro
        have hlt := h2.true_lt _ hrow6 hr
        have hlen := h2.len (g.getD i [])
        refine ⟨?_, ?_, ?_⟩
        · have hadd := countEmptyG_set_add g (checkSymbolIsFullyAllocated (g.getD i []) 2).2 hig
          show countEmptyG (g.set i (checkSymbolIsFullyAllocated (g.getD i []) 2).2) <
            countEmptyG g
          omega
        · rw [gridDiff_set_eq g _ hig]
          exact h2.diff_le _ hrow6
        · exact GridWF_set hg (by omega) i
      · next hr2 =>
        have hgb : g.set i (checkSymbolIsFullyAllocated (g.getD i []) 2).2 = g := by
          rw [fsa_false _ _ (by simpa using hr2), set_getD_self]
        rw [hgb]
        split
        · next hr =>
          intro
          have hlt := h1.true_lt _ hcol6 hr
          have hlen : (checkSymbolIsFullyAllocated (getColumn g i) 1).2.length
              = g.length := by
            rw [h1.len (getColumn g i), getColumn_length]
          refine ⟨?_, ?_, ?_⟩
          · have hadd := countEmptyG_setColumn_add g
              (checkSymbolIsFullyAllocated (getColumn g i) 1).2
              (fun t ht => by rw [hg.2 t ht]; exact hi) hlen
            show countEmptyG (setColumn g i
              (checkSymbolIsFullyAllocated (getColumn g i) 1).2) < countEmptyG g
            omega
          · exact le_trans (gridDiff_setColumn_le g i _) (h1.diff_le _ hcol6)
          · exact GridWF_setColumn hg hlen
        · next hc1 =>
          have hgc : setColumn g i
              (checkSymbolIsFullyAllocated (getColumn g i) 1).2 = g := by
            rw [fsa_false _ _ (by simpa using hc1), setColumn_self]
          rw [hgc]
          split
          · next hr =>
            intro
            have hlt := h2.true_lt _ hcol6 hr
            have hlen : (checkSymbolIsFullyAllocated (getColumn g i) 2).2.length
                = g.length := by
              rw [h2.len (getColumn g i), getColumn_length]
            refine ⟨?_, ?_, ?_⟩
            · have hadd := countEmptyG_setColumn_add g
                (checkSymbolIsFullyAllocated (getColumn g i) 2).2
                (fun t ht => by rw [hg.2 t ht]; exact hi) hlen
              show countEmptyG (setColumn g i
                (checkSymbolIsFullyAllocated (getColumn g i) 2).2) < countEmptyG g
              omega
            · exact le_trans (gridDiff_setColumn_le g i _) (h2.diff_le _ hcol6)
            · exact GridWF_setColumn hg hlen
          · next hc2 =>
            have hgd : setColumn g i
                (checkSymbolIsFullyAllocated (getColumn g i) 2).2 = g := by
              rw [fsa_false _ _ (by simpa using hc2), setColumn_self]
            rw [hgd]
            exact ih g hg (fun t ht => hidx t (List.mem_cons_of_mem i ht))

/-! ## Every driver rule satisfies `RuleOK` -/

theorem lineRule_ok {f : Line → Bool × Line} (hf : LineRuleOK f) :
    RuleOK (lineRule f) := by
  constructor
  · intro g cs
    exact lineGo_false hf (List.range g.length) g
  · intro g cs hg _
    exact lineGo_true hf (List.range g.length) g hg
      (fun i hi => by rw [← hg.1]; exact List.mem_range.mp hi)

theorem fullAllocRule_ok : RuleOK fullAllocRule := by
  constructor
  · intro g cs
    exact fullAllocGo_false (List.range g.length) g
  · intro g cs hg _
    exact fullAllocGo_true (List.range g.length) g hg
      (fun i hi => by rw [← hg.1]; exact List.mem_range.mp hi)

theorem checkConstraints_ok : RuleOK checkConstraints := by
  constructor
  · intro g cs
    exact checkConstraintsGo_false g cs
  · intro g cs hg hcs
    exact checkConstraintsGo_true hg cs hcs

theorem eqConflict_ok : RuleOK checkFilledCellsEqualsConflict := by
  constructor
  · intro g cs
    exact checkFilledCellsEqualsConflict_false g cs
  · intro g cs hg hcs
    exact checkFilledCellsEqualsConflict_true hg hcs

theorem eqNeighbour_ok : RuleOK checkEqualConstraintNeighbourImplication := by
  constructor
  · intro g cs
    exact checkEqualConstraintNeighbourImplication_false g cs
  · intro g cs hg hcs
    exact checkEqualConstraintNeighbourImplication_true hg hcs

theorem oppImpl_ok : RuleOK checkFilledCellsOppositeImplication := by
  constructor
  · intro g cs
    exact checkFilledCellsOppositeImplication_false g cs
  · intro g cs hg hcs
    exact checkFilledCellsOppositeImplication_true hg hcs

theorem eqEdge_ok : RuleOK checkEmptyOuterEqualsOppositeEdgeFilledImplication := by
  constructor
  · intro g cs
    exact checkEmptyOuterEqualsOppositeEdgeFilledImplication_false g cs
  · intro g cs hg hcs
    exact checkEmptyOuterEqualsOppositeEdgeFilledImplication_true hg hcs

theorem sourceRuleOrder_ok : ∀ r ∈ sourceRuleOrder, RuleOK r := by
  intro r hr
  simp only [sourceRuleOrder, List.mem_cons, List.not_mem_nil, or_false] at hr
  rcases hr with rfl | rfl | rfl | rfl | rfl | rfl | rfl | rfl | rfl | rfl | rfl
  · exact checkConstraints_ok
  · exact eqConflict_ok
  · exact eqNeighbour_ok
  · exact oppImpl_ok
  · exact eqEdge_ok
  · exact fullAllocRule_ok
  · exact lineRule_ok adjacent_ok
  · exact lineRule_ok separated_ok
  · exact lineRule_ok pairAtEdge_ok
  · exact lineRule_ok outerMatch_ok
  · exact lineRule_ok outerInterior_ok

/-! ## The chained driver -/

theorem applyRules_false :
    ∀ (rs : List RuleFn) (g : Grid) (cs : List Constraint),
    (∀ r ∈ rs, ∀ g', (r g' cs).1 = false → (r g' cs).2 = g') →
    (applyRules rs g cs).1 = false → (applyRules rs g cs).2 = g := by
  intro rs
  induction rs with
  | nil => intro g cs _ _; rfl
  | cons r rest ih =>
    intro g cs hok
    simp only [applyRules]
    split
    · next h => intro h2; rw [h] at h2; cases h2
    · next h =>
      have hr := hok r (List.mem_cons_self r rest) g (by simpa using h)
      rw [hr]
      exact ih g cs (fun q hq => hok q (List.mem_cons_of_mem r hq))

theorem applyRules_true :
    ∀ (rs : List RuleFn) (g : Grid) (cs : List Constraint),
    GridWF g → ConsWF cs → (∀ r ∈ rs, RuleOK r) →
    (applyRules rs g cs).1 = true →
      countEmptyG (applyRules rs g cs).2 < countEmptyG g ∧
      gridDiff g (applyRules rs g cs).2 ≤ 3 ∧
      GridWF (applyRules rs g cs).2 := by
  intro rs
  induction rs with
  | nil => intro g cs _ _ _ h; simp [applyRules] at h
  | cons r rest ih =>
    intro g cs hg hcs hok
    simp only [applyRules]
    split
    · next h =>
      intro
      exact (hok r (List.mem_cons_self r rest)).2 g cs hg hcs h
    · next h =>
      have hr := (hok r (List.mem_cons_self r rest)).1 g cs (by simpa using h)
      rw [hr]
      exact ih g cs hg hcs (fun q hq => hok q (List.mem_cons_of_mem r hq))

/-! ## The driver `makeDeduction` -/

theorem makeDeduction_eq_applyRules (s : PuzzleState) :
    makeDeduction s = applyRules sourceRuleOrder s.grid s.constraints := rfl

theorem makeDeduction_false_eq (s : PuzzleState) :
    (makeDeduction s).1 = false → (makeDeduction s).2 = s.grid := by
  rw [makeDeduction_eq_applyRules]
  exact applyRules_false sourceRuleOrder s.grid s.constraints
    (fun r hr g' => (sourceRuleOrder_ok r hr).1 g' s.constraints)

theorem makeDeduction_true_spec {s : PuzzleState} (h : PuzzleWF s) :
    (makeDeduction s).1 = true →
      countEmptyG (makeDeduction s).2 < countEmptyG s.grid ∧
      gridDiff s.grid (makeDeduction s).2 ≤ 3 ∧
      GridWF (makeDeduction s).2 := by
  rw [makeDeduction_eq_applyRules]
  exact applyRules_true sourceRuleOrder s.grid s.constraints h.1 h.2
    sourceRuleOrder_ok

/-! ## Termination of the iterated driver -/

theorem countEmptyG_le_six_mul (g : Grid) (h : ∀ r ∈ g, r.length = 6) :
    countEmptyG g ≤ 6 * g.length := by
  induction g with
  | nil => simp [countEmptyG]
  | cons r rs ih =>
    have h1 : countEmptyL r ≤ 6 := by
      have := countVal_le_length r 0
      have := h r (List.mem_cons_self r rs)
      simp only [countEmptyL]
      omega
    have h2 := ih (fun t ht => h t (List.mem_cons_of_mem r ht))
    simp only [countEmptyG, List.length_cons]
    omega

theorem countEmptyG_le_36 {g : Grid} (hg : GridWF g) : countEmptyG g ≤ 36 := by
  have := countEmptyG_le_six_mul g hg.2
  rw [hg.1] at this
  omega

theorem iterSucc_bound :
    ∀ (n : Nat) (s : PuzzleState) (k : Nat), PuzzleWF s →
    countEmptyG s.grid ≤ k → iterSucc s n ≠ none → n ≤ k := by
  intro n
  induction n with
  | zero => intro s k _ _ _; omega
  | succ n ih =>
    intro s k hwf hk hne
    simp only [iterSucc] at hne
    by_cases hfire : (makeDeduction s).1 = true
    · rw [if_pos hfire] at hne
      have htrip := makeDeduction_true_spec hwf hfire
      have hwf2 : PuzzleWF ⟨(makeDeduction s).2, s.constraints⟩ :=
        ⟨htrip.2.2, hwf.2⟩
      have := ih ⟨(makeDeduction s).2, s.constraints⟩ (k - 1) hwf2
        (by simp only []; omega) hne
      omega
    · rw [if_neg hfire] at hne
      exact absurd rfl hne

/-! ## Characterisation of the basic relation rule -/

theorem checkConstraintsGo_no_eligible (g : Grid) :
    ∀ cs : List Constraint, (∀ c ∈ cs, ¬exactlyOneKnown g c) →
    checkConstraintsGo g cs = (false, g) := by
  intro cs
  induction cs with
  | nil => intro; rfl
  | cons c rest ih =>
    intro h
    have hc := h c (List.mem_cons_self c rest)
    have hskip : (getCell g c.cells.1.1 c.cells.1.2 = 0 ∧
        getCell g c.cells.2.1 c.cells.2.2 = 0) ∨
        (getCell g c.cells.1.1 c.cells.1.2 ≠ 0 ∧
        getCell g c.cells.2.1 c.cells.2.2 ≠ 0) := by
      by_cases h1 : getCell g c.cells.1.1 c.cells.1.2 = 0 <;>
        by_cases h2 : getCell g c.cells.2.1 c.cells.2.2 = 0
      · exact Or.inl ⟨h1, h2⟩
      · exact absurd (Or.inr ⟨h1, h2⟩) hc
      · exact absurd (Or.inl ⟨h1, h2⟩) hc
      · exact Or.inr ⟨h1, h2⟩
    simp only [checkConstraintsGo, if_pos hskip]
    exact ih (fun d hd => h d (List.mem_cons_of_mem c hd))

theorem checkConstraintsGo_skip_append (g : Grid) :
    ∀ (cs₁ : List Constraint), (∀ c ∈ cs₁, ¬exactlyOneKnown g c) →
    ∀ cs₂ : List Constraint,
    checkConstraintsGo g (cs₁ ++ cs₂) = checkConstraintsGo g cs₂ := by
  intro cs₁
  induction cs₁ with
  | nil => intro _ cs₂; rfl
  | cons c rest ih =>
    intro h cs₂
    have hc := h c (List.mem_cons_self c rest)
    have hskip : (getCell g c.cells.1.1 c.cells.1.2 = 0 ∧
        getCell g c.cells.2.1 c.cells.2.2 = 0) ∨
        (getCell g c.cells.1.1 c.cells.1.2 ≠ 0 ∧
        getCell g c.cells.2.1 c.cells.2.2 ≠ 0) := by
      by_cases h1 : getCell g c.cells.1.1 c.cells.1.2 = 0 <;>
        by_cases h2 : getCell g c.cells.2.1 c.cells.2.2 = 0
      · exact Or.inl ⟨h1, h2⟩
      · exact absurd (Or.inr ⟨h1, h2⟩) hc
      · exact absurd (Or.inl ⟨h1, h2⟩) hc
      · exact Or.inr ⟨h1, h2⟩
    simp only [List.cons_append, checkConstraintsGo, if_pos hskip]
    exact ih (fun d hd => h d (List.mem_cons_of_mem c hd)) cs₂

/-! ## Characterisation of the adjacent-pair rule's tie-break -/

theorem adjacentGo_fire_before (l : Line) (k : Nat)
    (hk1 : k + 1 < l.length) (hm : l.getD k 0 = l.getD (k + 1) 0)
    (hm0 : l.getD k 0 ≠ 0) (hk : 0 < k) (hbe : l.getD (k - 1) 0 = 0) :
    ∀ (fuel i : Nat), l.length - i ≤ fuel → i ≤ k →
    (∀ j, i ≤ j → j < k → ¬adjacentWindowFires l j) →
    adjacentGo l i fuel =
      (true, l.set (k - 1) (getOppositeSymbol (l.getD k 0))) := by
  intro fuel
  induction fuel with
  | zero =>
    intro i hfi hik _
    exact absurd hfi (by omega)
  | succ n ih =>
    intro i hfi hik hnf
    simp only [adjacentGo]
    by_cases hikeq : i = k
    · subst hikeq
      rw [if_pos hk1, if_pos ⟨hm, hm0⟩, if_pos ⟨hk, hbe⟩]
    · have hilt : i < k := by omega
      have hf := hnf i (by omega) hilt
      have hcond : i + 1 < l.length := by omega
      rw [if_pos hcond]
      by_cases hmatch : l.getD i 0 = l.getD (i + 1) 0 ∧ l.getD i 0 ≠ 0
      · have hnb : ¬(0 < i ∧ l.getD (i - 1) 0 = 0) := by
          intro hb
          exact hf ⟨hmatch.1, hmatch.2, Or.inl hb⟩
        have hna : ¬(i + 1 < l.length - 1 ∧ l.getD (i + 2) 0 = 0) := by
          intro ha
          exact hf ⟨hmatch.1, hmatch.2, Or.inr ha⟩
        rw [if_pos hmatch, if_neg hnb, if_neg hna]
        exact ih (i + 1) (by omega) (by omega)
          (fun j hj1 hj2 => hnf j (by omega) hj2)
      · rw [if_neg hmatch]
        exact ih (i + 1) (by omega) (by omega)
          (fun j hj1 hj2 => hnf j (by omega) hj2)

theorem adjacentGo_fire_after (l : Line) (k : Nat)
    (hk1 : k + 1 < l.length) (hm : l.getD k 0 = l.getD (k + 1) 0)
    (hm0 : l.getD k 0 ≠ 0) (hnb : k = 0 ∨ l.getD (k - 1) 0 ≠ 0)
    (haf : k + 1 < l.length - 1) (hae : l.getD (k + 2) 0 = 0) :
    ∀ (fuel i : Nat), l.length - i ≤ fuel → i ≤ k →
    (∀ j, i ≤ j → j < k → ¬adjacentWindowFires l j) →
    adjacentGo l i fuel =
      (true, l.set (k + 2) (getOppositeSymbol (l.getD k 0))) := by
  have hnb2 : ¬(0 < k ∧ l.getD (k - 1) 0 = 0) := by
    rcases hnb with h | h
    · omega
    · intro hb
      exact h hb.2
  intro fuel
  induction fuel with
  | zero =>
    intro i hfi hik _
    exact absurd hfi (by omega)
  | succ n ih =>
    intro i hfi hik hnf
    simp only [adjacentGo]
    by_cases hikeq : i = k
    · subst hikeq
      rw [if_pos hk1, if_pos ⟨hm, hm0⟩, if_neg hnb2, if_pos ⟨haf, hae⟩]
    · have hilt : i < k := by omega
      have hf := hnf i (by omega) hilt
      have hcond : i + 1 < l.length := by omega
      rw [if_pos hcond]
      by_cases hmatch : l.getD i 0 = l.getD (i + 1) 0 ∧ l.getD i 0 ≠ 0
      · have hnbi : ¬(0 < i ∧ l.getD (i - 1) 0 = 0) := by
          intro hb
          exact hf ⟨hmatch.1, hmatch.2, Or.inl hb⟩
        have hnai : ¬(i + 1 < l.length - 1 ∧ l.getD (i + 2) 0 = 0) := by
          intro ha
          exact hf ⟨hmatch.1, hmatch.2, Or.inr ha⟩
        rw [if_pos hmatch, if_neg hnbi, if_neg hnai]
        exact ih (i + 1) (by omega) (by omega)
          (fun j hj1 hj2 => hnf j (by omega) hj2)
      · rw [if_neg hmatch]
        exact ih (i + 1) (by omega) (by omega)
          (fun j hj1 hj2 => hnf j (by omega) hj2)

/-! ## The constructor's deep copy -/

theorem constraint_copy_eq (c : Constraint) :
    ({ type := c.type,
       cells := ((c.cells.1.1, c.cells.1.2), (c.cells.2.1, c.cells.2.2)) } :
      Constraint) = c := by
  rcases c with ⟨t, ⟨⟨a, b⟩, ⟨x, y⟩⟩⟩
  rfl

theorem deepCopy_eq (s : PuzzleState) : deepCopy s = s := by
  rcases s with ⟨g, cs⟩
  simp only [deepCopy, PuzzleState.mk.injEq]
  constructor
  · simp
  · simp [constraint_copy_eq]

/-! ## Claim theorems -/

/-- Claim C1, counterexample: the claim states that one invocation of
`makeDeduction` assigns at most one cell.  On the state whose first row is
`[A, A, A, 0, 0, 0]` a single invocation reports progress and changes three
cells, so the count of changed cells is not at most 1. -/
theorem claim_C1_counterexample :
    (makeDeduction fullAllocState).1 = true ∧
    gridDiff fullAllocState.grid (makeDeduction fullAllocState).2 = 3 ∧
    ¬ gridDiff fullAllocState.grid (makeDeduction fullAllocState).2 ≤ 1 := by
  decide

/-- Claim C1, amended: a single invocation of `makeDeduction` on a
well-formed state applies at most one rule and changes at most three cells
of the grid (the full-allocation rule can fill up to three empty cells of
one line in a single invocation). -/
theorem claim_C1_single_step_bound : ∀ s : PuzzleState, PuzzleWF s →
    gridDiff s.grid (makeDeduction s).2 ≤ 3 := by
  intro s h
  by_cases hf : (makeDeduction s).1 = true
  · exact (makeDeduction_true_spec h hf).2.1
  · rw [makeDeduction_false_eq s (by simpa using hf), gridDiff_self]
    omega

/-- Witness for the amended claim C1 at a concrete well-formed state. -/
theorem claim_C1_single_step_bound_witness :
    gridDiff fullAllocState.grid (makeDeduction fullAllocState).2 ≤ 3 :=
  claim_C1_single_step_bound fullAllocState (by decide)

/-- Claim C2: the spec's solve-to-completion operation is expected to return
a classification and to classify the contradiction scenario (cells (0,0)=A,
(0,1)=A with an OPPOSITE relation) as Contradiction.  The source's `solve`
is a stub: on every input, including this scenario, it returns
`{ solvedPuzzle: null, isSolvable: false }` without running any rule, so no
classification of any kind is produced. -/
theorem claim_C2_solve_stub :
    solve contradictionState = { solvedPuzzle := none, isSolvable := false } ∧
    (∀ s : PuzzleState, solve s =
      { solvedPuzzle := none, isSolvable := false }) ∧
    construct contradictionState = some contradictionState :=
  ⟨rfl, fun _ => rfl, rfl⟩

/-- Claim C3: the claim states that no rule ever changes a non-empty cell.
The outer-match rule violates this: on the line `[A, A, B, B, 0, A]` it
reports progress and overwrites the non-empty cell at index 1 (A) with B,
and through `makeDeduction` on the state whose first row is
`[A, A, A, B, 0, A]` the non-empty cell (0,1) changes from A to B. -/
theorem claim_C3_overwrite :
    checkOuterMatchImplication [1, 1, 2, 2, 0, 1] = (true, [1, 2, 2, 2, 2, 1]) ∧
    ([1, 1, 2, 2, 0, 1] : Line).getD 1 0 ≠ 0 ∧
    (makeDeduction overwriteState).1 = true ∧
    getCell overwriteState.grid 0 1 = 1 ∧
    getCell (makeDeduction overwriteState).2 0 1 = 2 := by
  decide

/-- Claim C4, counterexample: the driver does not evaluate the rule classes
in the order the claim states (relation → cardinality → full-allocation →
adjacency → relation-boundary).  On `orderState` both the EQUAL-neighbour
rule and the opposite-overflow rule are applicable; the claimed order would
fire opposite-overflow first, while `makeDeduction` fires EQUAL-neighbour
first, and the resulting grids differ. -/
theorem claim_C4_counterexample :
    makeDeduction orderState ≠ claimedDeduction orderState := by
  decide

/-- Claim C4, amended: the driver evaluates the rules in the source's fixed
order — relation rule, relation-vs-count, EQUAL-neighbour, opposite-overflow,
EQUAL-edge, then per-line full-allocation over every row and column, then
adjacent-pair, separated-pair, edge-pair, outer-match and
outer-interior-match scans — stopping at the first success. -/
theorem claim_C4_rule_order : ∀ s : PuzzleState,
    makeDeduction s = applyRules sourceRuleOrder s.grid s.constraints :=
  fun _ => rfl

/-- Claim C5: the basic relation rule.  If every constraint before `c` in
the scan has both cells empty or both cells filled, and exactly one of `c`'s
cells is known, the rule writes the forced value into the other cell (EQUAL
copies the known symbol, OPPOSITE assigns the other symbol); if no
constraint has exactly one known cell, the rule reports no progress and the
grid is unchanged.  In particular, one step on the EQUAL scenario sets
(0,1)=A and one step on the OPPOSITE scenario sets (0,1)=B. -/
theorem claim_C5_relation_rule :
    (∀ (g : Grid) (cs₁ cs₂ : List Constraint) (c : Constraint),
      (∀ c' ∈ cs₁, ¬exactlyOneKnown g c') →
      getCell g c.cells.1.1 c.cells.1.2 ≠ 0 →
      getCell g c.cells.2.1 c.cells.2.2 = 0 →
      checkConstraints g (cs₁ ++ c :: cs₂) =
        (true, setCell g c.cells.2.1 c.cells.2.2
          (if c.type = CKind.EQUAL then getCell g c.cells.1.1 c.cells.1.2
           else getOppositeSymbol (getCell g c.cells.1.1 c.cells.1.2)))) ∧
    (∀ (g : Grid) (cs₁ cs₂ : List Constraint) (c : Constraint),
      (∀ c' ∈ cs₁, ¬exactlyOneKnown g c') →
      getCell g c.cells.1.1 c.cells.1.2 = 0 →
      getCell g c.cells.2.1 c.cells.2.2 ≠ 0 →
      checkConstraints g (cs₁ ++ c :: cs₂) =
        (true, setCell g c.cells.1.1 c.cells.1.2
          (if c.type = CKind.EQUAL then getCell g c.cells.2.1 c.cells.2.2
           else getOppositeSymbol (getCell g c.cells.2.1 c.cells.2.2)))) ∧
    (∀ (g : Grid) (cs : List Constraint), (∀ c ∈ cs, ¬exactlyOneKnown g c) →
      checkConstraints g cs = (false, g)) ∧
    makeDeduction equalScenarioState =
      (true, [[1, 1, 0, 0, 0, 0], zeroRow, zeroRow, zeroRow, zeroRow, zeroRow]) ∧
    makeDeduction oppositeScenarioState =
      (true, [[1, 2, 0, 0, 0, 0], zeroRow, zeroRow, zeroRow, zeroRow, zeroRow]) := by
  refine ⟨?_, ?_, ?_, by decide, by decide⟩
  · intro g cs₁ cs₂ c hpre h1 h2
    show checkConstraintsGo g (cs₁ ++ c :: cs₂) = _
    rw [checkConstraintsGo_skip_append g cs₁ hpre (c :: cs₂)]
    have hno : ¬((getCell g c.cells.1.1 c.cells.1.2 = 0 ∧
        getCell g c.cells.2.1 c.cells.2.2 = 0) ∨
        (getCell g c.cells.1.1 c.cells.1.2 ≠ 0 ∧
        getCell g c.cells.2.1 c.cells.2.2 ≠ 0)) := by
      intro h
      rcases h with h | h
      · exact h1 h.1
      · exact h.2 h2
    simp only [checkConstraintsGo]
    rw [if_neg hno, if_pos h1]
  · intro g cs₁ cs₂ c hpre h1 h2
    show checkConstraintsGo g (cs₁ ++ c :: cs₂) = _
    rw [checkConstraintsGo_skip_append g cs₁ hpre (c :: cs₂)]
    have hno : ¬((getCell g c.cells.1.1 c.cells.1.2 = 0 ∧
        getCell g c.cells.2.1 c.cells.2.2 = 0) ∨
        (getCell g c.cells.1.1 c.cells.1.2 ≠ 0 ∧
        getCell g c.cells.2.1 c.cells.2.2 ≠ 0)) := by
      intro h
      rcases h with h | h
      · exact h2 h.2
      · exact h.1 h1
    simp only [checkConstraintsGo]
    rw [if_neg hno, if_neg (show ¬(getCell g c.cells.1.1 c.cells.1.2 ≠ 0)
      from fun hh => hh h1), if_pos h2]
  · intro g cs h
    exact checkConstraintsGo_no_eligible g cs h

/-- Witness for claim C5: the basic relation rule applied to the EQUAL
scenario's single constraint forces cell (0,1). -/
theorem claim_C5_relation_rule_witness :
    checkConstraints equalScenarioState.grid
      ([] ++ (⟨CKind.EQUAL, ((0, 0), (0, 1))⟩ : Constraint) :: []) =
      (true, setCell equalScenarioState.grid 0 1
        (if (⟨CKind.EQUAL, ((0, 0), (0, 1))⟩ : Constraint).type = CKind.EQUAL
         then getCell equalScenarioState.grid 0 0
         else getOppositeSymbol (getCell equalScenarioState.grid 0 0))) :=
  claim_C5_relation_rule.1 equalScenarioState.grid [] []
    ⟨CKind.EQUAL, ((0, 0), (0, 1))⟩
    (fun c hc => absurd hc (List.not_mem_nil c)) (by decide) (by decide)

/-- Claim C6: the full-allocation rule.  If a line holds exactly three cells
of a symbol, the rule rewrites the line so that every EMPTY cell becomes the
other symbol and every non-empty cell is kept; in particular, one driver
step on the state whose first row is `[A, A, A, 0, 0, 0]` yields
`[A, A, A, B, B, B]`. -/
theorem claim_C6_full_allocation :
    (∀ (l : Line) (s : Cell), s = 1 ∨ s = 2 → countVal l s = 3 →
      (checkSymbolIsFullyAllocated l s).2 =
        l.map (fun c => if c = 0 then getOppositeSymbol s else c)) ∧
    makeDeduction fullAllocState =
      (true, [[1, 1, 1, 2, 2, 2], zeroRow, zeroRow, zeroRow, zeroRow, zeroRow]) := by
  constructor
  · intro l s _ h3
    unfold checkSymbolIsFullyAllocated
    rw [if_pos h3]
    exact fillEmpty_snd l _
  · decide

/-- Witness for claim C6 at the concrete line `[A, A, A, 0, 0, 0]`. -/
theorem claim_C6_full_allocation_witness :
    (checkSymbolIsFullyAllocated [1, 1, 1, 0, 0, 0] 1).2 =
      List.map (fun c => if c = 0 then getOppositeSymbol 1 else c)
        [1, 1, 1, 0, 0, 0] :=
  claim_C6_full_allocation.1 [1, 1, 1, 0, 0, 0] 1 (Or.inl rfl) (by decide)

/-- Claim C7, counterexample: the claim states that construction rejects a
structurally invalid relation.  The constructor performs no validation: on a
state with the out-of-grid relation (0,0)-(7,3) construction succeeds and
returns the state unchanged (`none` would model a thrown rejection). -/
theorem claim_C7_counterexample :
    ¬ (∀ c ∈ invalidRelationState.constraints, structurallyValidRelation c) ∧
    construct invalidRelationState = some invalidRelationState :=
  ⟨by decide, rfl⟩

/-- Claim C7, amended: engine construction performs no structural
validation at all; for every input, including structurally invalid
relations, the constructor succeeds and stores a deep copy equal to the
input. -/
theorem claim_C7_no_validation : ∀ s : PuzzleState, construct s = some s := by
  intro s
  unfold construct
  rw [deepCopy_eq]

/-- Claim C8: every progress-reporting invocation of `makeDeduction` on a
well-formed state strictly decreases the number of EMPTY cells (and no
invocation ever empties a cell), so at most 36 consecutive invocations can
report progress on a 6×6 grid. -/
theorem claim_C8_termination :
    (∀ s : PuzzleState, PuzzleWF s → (makeDeduction s).1 = true →
      countEmptyG (makeDeduction s).2 < countEmptyG s.grid) ∧
    (∀ (s : PuzzleState) (n : Nat), PuzzleWF s → iterSucc s n ≠ none →
      n ≤ 36) := by
  constructor
  · intro s h hf
    exact (makeDeduction_true_spec h hf).1
  · intro s n h hne
    exact iterSucc_bound n s 36 h (countEmptyG_le_36 h.1) hne

/-- Witness for claim C8 at a concrete well-formed state: one progress step
from `fullAllocState` decreases the empty-cell count, and a run of one
progress-reporting step is within the bound of 36. -/
theorem claim_C8_termination_witness :
    countEmptyG (makeDeduction fullAllocState).2 <
      countEmptyG fullAllocState.grid ∧ (1 : Nat) ≤ 36 :=
  ⟨claim_C8_termination.1 fullAllocState (by decide) (by decide),
   claim_C8_termination.2 fullAllocState 1 (by decide) (by decide)⟩

/-- Claim C9: whenever `makeDeduction` reports no progress, the state after
the call (its grid together with its untouched constraints) equals the state
before it; in particular a state at fixpoint is not mutated. -/
theorem claim_C9_no_progress_no_change : ∀ s : PuzzleState,
    (makeDeduction s).1 = false →
    (⟨(makeDeduction s).2, s.constraints⟩ : PuzzleState) = s := by
  intro s h
  have hgr := makeDeduction_false_eq s h
  rcases s with ⟨g, cs⟩
  rw [hgr]

/-- Witness for claim C9: the all-empty puzzle is at fixpoint and is left
unchanged. -/
theorem claim_C9_no_progress_no_change_witness :
    (⟨(makeDeduction emptyState).2, emptyState.constraints⟩ : PuzzleState) =
      emptyState :=
  claim_C9_no_progress_no_change emptyState (by decide)

/-- Claim C10: the tie-break of the adjacent-pair rule.  For the first
firing window (k, k+1) of a line, when both the before-neighbour `k - 1` and
the after-neighbour `k + 2` exist and are EMPTY, the rule forces only the
before-neighbour to the opposite symbol and leaves the after-neighbour
EMPTY; the after-neighbour is forced only when the before-neighbour is
absent (k = 0) or non-empty. -/
theorem claim_C10_adjacent_tie_break :
    (∀ (l : Line) (k : Nat),
      (∀ j, j < k → ¬adjacentWindowFires l j) →
      k + 1 < l.length → l.getD k 0 = l.getD (k + 1) 0 → l.getD k 0 ≠ 0 →
      0 < k → l.getD (k - 1) 0 = 0 →
      k + 1 < l.length - 1 → l.getD (k + 2) 0 = 0 →
      checkAdjacentMatchingImplication l =
        (true, l.set (k - 1) (getOppositeSymbol (l.getD k 0))) ∧
      (checkAdjacentMatchingImplication l).2.getD (k + 2) 0 = 0) ∧
    (∀ (l : Line) (k : Nat),
      (∀ j, j < k → ¬adjacentWindowFires l j) →
      k + 1 < l.length → l.getD k 0 = l.getD (k + 1) 0 → l.getD k 0 ≠ 0 →
      (k = 0 ∨ l.getD (k - 1) 0 ≠ 0) →
      k + 1 < l.length - 1 → l.getD (k + 2) 0 = 0 →
      checkAdjacentMatchingImplication l =
        (true, l.set (k + 2) (getOppositeSymbol (l.getD k 0)))) := by
  constructor
  · intro l k hnf hk1 hm hm0 hk hbe _ hae
    have heq : checkAdjacentMatchingImplication l =
        (true, l.set (k - 1) (getOppositeSymbol (l.getD k 0))) := by
      unfold checkAdjacentMatchingImplication
      exact adjacentGo_fire_before l k hk1 hm hm0 hk hbe l.length 0 (by omega)
        (by omega) (fun j _ hj => hnf j hj)
    refine ⟨heq, ?_⟩
    rw [heq]
    show (l.set (k - 1) (getOppositeSymbol (l.getD k 0))).getD (k + 2) 0 = 0
    rw [getD_set_ne l (getOppositeSymbol (l.getD k 0)) 0
      (by omega : k - 1 ≠ k + 2)]
    exact hae
  · intro l k hnf hk1 hm hm0 hnb haf hae
    unfold checkAdjacentMatchingImplication
    exact adjacentGo_fire_after l k hk1 hm hm0 hnb haf hae l.length 0 (by omega)
      (by omega) (fun j _ hj => hnf j hj)

/-- Witness for claim C10 on the spec's adjacent-pair line
`[0, A, A, 0, 0, 0]` with the firing window at (1, 2): the rule sets index 0
and leaves index 3 EMPTY. -/
theorem claim_C10_adjacent_tie_break_witness :
    (checkAdjacentMatchingImplication [0, 1, 1, 0, 0, 0] =
      (true, List.set [0, 1, 1, 0, 0, 0] 0
        (getOppositeSymbol (List.getD [0, 1, 1, 0, 0, 0] 1 0))) ∧
    (checkAdjacentMatchingImplication [0, 1, 1, 0, 0, 0]).2.getD 3 0 = 0) :=
  claim_C10_adjacent_tie_break.1 [0, 1, 1, 0, 0, 0] 1 (by decide) (by decide)
    (by decide) (by decide) (by decide) (by decide) (by decide) (by decide)

end Tango
